import Mathlib

/-!
Verification of the boxesandglue/baseline-pdf PDF writer.

This file shallowly embeds the parts of the Go source that the claims
C1–C10 are about, and proves or refutes each claim.

Modelling conventions:
* Go byte strings (the bytes written to the PDF output sink) are modelled
  as `List Nat`, one entry per byte.  All bytes emitted by the writer are
  in the range 0–255; ASCII literals are embedded with `ascii`.
* Go strings that are ranged over as runes (Unicode code points) are
  modelled as `List Nat` of code points.
* Go maps are modelled as association lists together with `Nodup`
  hypotheses on the keys, or as functions `Nat → Option _` where the code
  only ever reads the map.
* Go `int`/`int64` values that are provably non-negative at the modelled
  code paths (byte positions, object numbers, lengths) are modelled as `Nat`.
-/

/-- Bytes of an ASCII string literal (each char is one byte in the source). -/
def ascii (s : String) : List Nat := s.data.map Char.toNat

/-- `strings.Repeat(" ", k)` — `k` space bytes. -/
def spaces (k : Nat) : List Nat := List.replicate k 32

/-- Decimal digit characters of `n`, most significant first, via repeated
division by 10.  Structured with fuel (first argument) so that it is
structurally recursive; `natDec` instantiates the fuel so the digits are
always complete. -/
def natDecAux : Nat → Nat → List Nat
  | 0, _ => []
  | fuel + 1, n => if n < 10 then [48 + n] else natDecAux fuel (n / 10) ++ [48 + n % 10]

/-- Bytes of Go `fmt.Sprintf("%d", n)` for a non-negative value. -/
def natDec (n : Nat) : List Nat := natDecAux (n + 1) n

/-- Bytes of Go `fmt.Sprintf("%d", i)` for a possibly negative `int`. -/
def intDec (i : Int) : List Nat :=
  if i < 0 then 45 :: natDec i.natAbs else natDec i.toNat

/-! ## Value model and serialization (src/pdfobject.go, src/writer.go) -/

/-- `Objectnumber.Ref()`: `fmt.Sprintf("%d 0 R", o)`. -/
def refStr (n : Nat) : List Nat := natDec n ++ ascii " 0 R"

/-- One step of `pdfStringReplacer` from src/pdfobject.go:13.  All patterns of
that `strings.Replacer` are single characters, so it acts as a per-character
map: `(`, `)`, `\`, LF, CR, TAB and BS are escaped, everything else is

copied unchanged. -/
def pdfStringReplaceChar (c : Nat) : List Nat :=
  if c = 40 then [92, 40]
  else if c = 41 then [92, 41]
  else if c = 92 then [92, 92]
  else if c = 10 then [92, 110]
  else if c = 13 then [92, 114]
  else if c = 9 then [92, 116]
  else if c = 8 then [92, 98]
  else [c]

/-- `pdfStringReplacer.Replace` on a sequence of code points. -/
def pdfStringReplace (s : List Nat) : List Nat := s.flatMap pdfStringReplaceChar

/-- `utf16.Encode` on one Unicode scalar value (Go encodes one rune to one
code unit below 0x10000 and to a surrogate pair otherwise; the replacement
cases for surrogate/out-of-range runes cannot arise for scalar values,
which is a hypothesis of the theorems using this). -/
def utf16EncodeChar (c : Nat) : List Nat :=
  if c < 65536 then [c]
  else [55296 + (c - 65536) / 1024, 56320 + (c - 65536) % 1024]

/-- `utf16.Encode` on a rune sequence. -/
def utf16Encode (s : List Nat) : List Nat := s.flatMap utf16EncodeChar

/-- Lower-case hex digit character for `d < 16`. -/
def hexChar (d : Nat) : Nat := if d < 10 then 48 + d else 87 + d

/-- Bytes of `fmt.Sprintf("%04x", u)` for `u < 0x10000` (each UTF-16 code
unit): exactly four lower-case hex digits. -/
def hex4 (u : Nat) : List Nat :=
  [hexChar (u / 4096 % 16), hexChar (u / 256 % 16), hexChar (u / 16 % 16), hexChar (u % 16)]

/-- `stringToPDF` from src/pdfobject.go:35.  The Go string is ranged as
runes, modelled as the list of its code points; the result is the list of
output bytes. -/
def stringToPDF (s : List Nat) : List Nat :=
  if s.all (· ≤ 127) then
    40 :: pdfStringReplace s ++ [41]
  else
    ascii "<feff" ++ (utf16Encode s).flatMap hex4 ++ [62]

/-- `PDFNameReplacer.Replace` from src/writer.go:19.  The replacer is
`strings.NewReplacer("#20", " ", "/", "#2f", "#", "#23", "(", "#28", ")", "#29")`:
at each position the first pattern (in argument order) that matches is
replaced, so the literal substring `#20` becomes a space, and `/`, `#`,
`(`, `)` become `#2f`, `#23`, `#28`, `#29`.  Note the first pair replaces
`#20` BY a space, not a space by `#20`. -/
def pdfNameReplace : List Nat → List Nat
  | [] => []
  | 35 :: 50 :: 48 :: rest => 32 :: pdfNameReplace rest
  | 47 :: rest => 35 :: 50 :: 102 :: pdfNameReplace rest
  | 35 :: rest => 35 :: 50 :: 51 :: pdfNameReplace rest
  | 40 :: rest => 35 :: 50 :: 56 :: pdfNameReplace rest
  | 41 :: rest => 35 :: 50 :: 57 :: pdfNameReplace rest
  | c :: rest => c :: pdfNameReplace rest

/-- `Name.String()` from src/writer.go:69: cut one leading slash if present,
then prepend a slash to the replaced remainder. -/
def nameString (n : List Nat) : List Nat :=
  47 :: pdfNameReplace (if n.head? = some 47 then n.tail else n)

/-- The values a `Dict`/`Array` can hold, following the type switch of
`serializeLevel` (src/pdfobject.go:67): Go `string` (printed verbatim),
PDF `String` (via `stringToPDF`, as code points), `int`, `Objectnumber`
(printed as a reference), `Array` and `Dict`.  The `float64`,
`NameTreeData` and reflective default cases of the switch are not used by
any claim and are outside the embedding (`float64` formatting is IEEE-754
specific). -/
inductive PDFVal where
  | raw : List Nat → PDFVal
  | pstr : List Nat → PDFVal
  | int : Int → PDFVal
  | onum : Nat → PDFVal
  | arr : List PDFVal → PDFVal
  | dict : List (String × PDFVal) → PDFVal

/-- A `Dict` (Go `map[Name]any`) is modelled as an association list whose
keys are unique (`Nodup` hypotheses appear in the theorems). -/
abbrev DictM := List (String × PDFVal)

/-- Go map read `h[key]`. -/
def dictLookup : DictM → String → Option PDFVal
  | [], _ => none
  | (k, v) :: rest, key => if k = key then some v else dictLookup rest key

theorem sizeOf_dictLookup {h : DictM} {key : String} {v : PDFVal}
    (hv : dictLookup h key = some v) : sizeOf v < sizeOf h := by
  induction h with
  | nil => simp [dictLookup] at hv
  | cons p rest ih =>
      obtain ⟨k, w⟩ := p
      by_cases hk : k = key
      · simp [dictLookup, hk] at hv
        subst hv
        simp
        omega
      · simp [dictLookup, hk] at hv
        have := ih hv
        simp
        omega

theorem dictLookup_isSome_of_mem {h : DictM} {key : String}
    (hm : key ∈ h.map Prod.fst) : (dictLookup h key).isSome = true := by
  induction h with
  | nil => simp at hm
  | cons p rest ih =>
      obtain ⟨k, w⟩ := p
      by_cases hk : k = key
      · simp [dictLookup, hk]
      · simp [dictLookup, hk]
        simp at hm
        rcases hm with hm | hm
        · exact absurd hm.symm hk
        · exact ih (by simpa using hm)

theorem sizeOf_dictLookup_getD {h : DictM} {key : String}
    (hm : key ∈ h.map Prod.fst) :
    sizeOf ((dictLookup h key).getD (.raw [])) < sizeOf h := by
  have hs := dictLookup_isSome_of_mem hm
  cases hv : dictLookup h key with
  | none => rw [hv] at hs; simp at hs
  | some v =>
      have := sizeOf_dictLookup hv
      simpa [hv] using this

/-- The sorting order of `sortByName` (src/writer.go:55): the key `Type`
sorts before everything, all other keys sort by the lexicographic string
order.  `sortByName.Less` is the corresponding strict order; since Go map
keys are unique, `sort.Sort` produces the unique permutation that is
sorted by this reflexive closure. -/
def nameLE (a b : String) : Prop :=
  if a = "Type" then True else if b = "Type" then False else a ≤ b

instance : DecidableRel nameLE := fun a b => by
  unfold nameLE
  infer_instance

/-- The sorted key sequence used by `hashToString`. -/
def sortNames (l : List String) : List String := List.insertionSort nameLE l

mutual

/-- `serializeLevel` from src/pdfobject.go:67 (type switch on the value). -/
def serializeLevel (v : PDFVal) (level : Nat) : List Nat :=
  match v with
  | .raw s => s
  | .pstr s => stringToPDF s
  | .int i => intDec i
  | .onum n => refStr n
  | .arr l => arrayToString l
  | .dict d => hashToString d (level + 1)
termination_by sizeOf v

/-- `arrayToString` from src/pdfobject.go:104: `[`, the serializations of
the elements (each at level 0, via `Serialize`), and `]`, joined by single
spaces. -/
def arrayToString (l : List PDFVal) : List Nat :=
  List.intercalate [32] ([ascii "["] ++ l.attach.map (fun e => serializeLevel e.1 0) ++ [ascii "]"])
termination_by sizeOf l
decreasing_by
  all_goals simp_wf
  all_goals try (have hsz := List.sizeOf_lt_of_mem e.2; omega)
  all_goals try (have hsz := sizeOf_dictLookup hlk; omega)

/-- `hashToString` from src/writer.go:633: `<<`, one line per key in
`sortByName` order (indentation, the escaped key, a space, the value
serialized one level deeper), and an indented `>>`. -/
def hashToString (h : DictM) (level : Nat) : List Nat :=
  ascii "<<\n" ++
  List.flatten ((sortNames (h.map Prod.fst)).attach.map
    (fun key =>
      spaces (level + 1) ++ nameString (ascii key.1) ++ [32] ++
      serializeLevel ((dictLookup h key.1).getD (.raw [])) (level + 1) ++ [10])) ++
  spaces level ++ ascii ">>"
termination_by sizeOf h
decreasing_by
  all_goals simp_wf
  all_goals try (have hsz := List.sizeOf_lt_of_mem e.2; omega)
  all_goals
    have hmem : key.1 ∈ h.map Prod.fst :=
      (List.perm_insertionSort nameLE (h.map Prod.fst)).mem_iff.mp
        (by simpa [sortNames] using key.2)
    have := sizeOf_dictLookup_getD hmem
    omega

end

/-- `Serialize` from src/pdfobject.go:63. -/
def serializePDF (item : PDFVal) : List Nat := serializeLevel item 0

/-- `serializeDict` from src/writer.go:44. -/
def serializeDict (d : DictM) : List Nat := hashToString d 0

/-! ## Document writer state (src/writer.go) -/

/-- Go map read on the object-location table. -/
def locGet : List (Nat × Nat) → Nat → Option Nat
  | [], _ => none
  | (k, v) :: rest, key => if k = key then some v else locGet rest key

/-- Go map assignment on the object-location table. -/
def locSet : List (Nat × Nat) → Nat → Nat → List (Nat × Nat)
  | [], k, v => [(k, v)]
  | (k0, v0) :: rest, k, v =>
      if k0 = k then (k, v) :: rest else (k0, v0) :: locSet rest k v

/-- The mutable writer state of the `PDF` struct that the modelled code
paths touch: the output sink contents, the running byte position `pos`,
`lastEOL`, the object number allocator `nextobject` and the
object-location table, plus the PDF version fields. -/
structure PDFW where
  output : List Nat
  pos : Nat
  lastEOL : Nat
  nextobject : Nat
  objectlocations : List (Nat × Nat)
  major : Nat
  minor : Nat

/-- A raw write to the sink (`fmt.Fprint(pw.outfile, s)` followed by
`pw.pos += n`). -/
def emit (st : PDFW) (bs : List Nat) : PDFW :=
  { st with output := st.output ++ bs, pos := st.pos + bs.length }

/-- The bytes of `writePDFHead` (src/writer.go:179):
`%PDF-<major>.<minor>` then a newline, a percent sign and four 0x80 bytes. -/
def pdfHeadBytes (st : PDFW) : List Nat :=
  ascii "%PDF-" ++ natDec st.major ++ ascii "." ++ natDec st.minor ++
    ascii "\n%" ++ [128, 128, 128, 128]

/-- The `if pw.pos == 0 { pw.writePDFHead() }` preamble of every
`Print`/`Println`/`Printf`/`eol`/`startObject`. -/
def ensureHead (st : PDFW) : PDFW :=
  if st.pos = 0 then emit st (pdfHeadBytes st) else st

/-- `PDF.Print` (src/writer.go:187). -/
def pwPrint (st : PDFW) (bs : List Nat) : PDFW := emit (ensureHead st) bs

/-- `PDF.Println` (src/writer.go:200). -/
def pwPrintln (st : PDFW) (bs : List Nat) : PDFW := pwPrint st (bs ++ [10])

/-- `PDF.eol` (src/writer.go:654): write a newline unless the position is
already just after one. -/
def eol (st : PDFW) : PDFW :=
  let st1 := ensureHead st
  if st1.pos ≠ st1.lastEOL then
    let st2 := pwPrintln st1 []
    { st2 with lastEOL := st2.pos }
  else st1

/-- `PDF.startObject` (src/writer.go:665): record `pos + 1` as the byte
offset of `onum` and write the `\n<onum> 0 obj\n` header. -/
def startObject (st : PDFW) (onum : Nat) : PDFW :=
  let st1 := ensureHead st
  let st2 := { st1 with objectlocations := locSet st1.objectlocations onum (st1.pos + 1) }
  pwPrint st2 (10 :: natDec onum ++ ascii " 0 obj" ++ [10])

/-- `PDF.endObject` (src/writer.go:680). -/
def endObject (st : PDFW) : PDFW := pwPrintln (eol st) (ascii "endobj")

/-- `PDF.NextObject` (src/writer.go:246). -/
def nextObjNum (st : PDFW) : Nat × PDFW :=
  (st.nextobject, { st with nextobject := st.nextobject + 1 })

/-! ## Objects and `Object.Save` (src/pdfobject.go) -/

/-- Go map assignment on a `Dict`. -/
def dictSet : DictM → String → PDFVal → DictM
  | [], k, v => [(k, v)]
  | (k0, v0) :: rest, k, v =>
      if k0 = k then (k, v) :: rest else (k0, v0) :: dictSet rest k v

/-- The `Object` struct (src/pdfobject.go:121).  `comment` is a byte
sequence; `data` is the contents of the `bytes.Buffer`. -/
structure Obj where
  objectNumber : Nat
  data : List Nat
  dictionary : DictM
  array : List PDFVal
  raw : Bool
  forceStream : Bool
  compress : Bool
  comment : List Nat
  saved : Bool

/-- `PDF.NewObjectWithNumber` (src/pdfobject.go:137). -/
def newObjWithNumber (onum : Nat) : Obj :=
  { objectNumber := onum, data := [], dictionary := [], array := [],
    raw := false, forceStream := false, compress := false, comment := [], saved := false }

/-- `PDF.NewObject` (src/pdfobject.go:149). -/
def newObject (st : PDFW) : Obj × PDFW :=
  let (n, st1) := nextObjNum st
  (newObjWithNumber n, st1)

/-- `Object.Save` (src/pdfobject.go:164).  The zlib compressor is an
external collaborator; its behaviour is the parameter `deflate`
(`zlibWriter.Reset/Write/Close` on the data bytes).  `bytes.Buffer.WriteTo`
drains the buffer, so `data` is emptied whenever it is written out. -/
def objSave (deflate : List Nat → List Nat) (o : Obj) (st : PDFW) : Obj × PDFW :=
  if o.saved then (o, st)
  else
    let o1 := { o with saved := true }
    let st1 := if o1.comment ≠ [] then pwPrint st (10 :: (ascii "% " ++ o1.comment)) else st
    if o1.raw then
      let st2 := startObject st1 o1.objectNumber
      let st3 := emit st2 o1.data
      let o2 := { o1 with data := [] }
      (o2, endObject st3)
    else
      let hasData := o1.data.length > 0 || o1.forceStream
      let o2 :=
        if hasData then
          let d0 := dictSet o1.dictionary "Length" (.raw (natDec o1.data.length))
          if o1.compress then
            let compressed := deflate o1.data
            let d1 := dictSet d0 "Filter" (.raw (ascii "/FlateDecode"))
            let d2 := dictSet d1 "Length" (.raw (natDec compressed.length))
            let d3 := dictSet d2 "Length1" (.raw (natDec o1.data.length))
            { o1 with dictionary := d3, data := compressed }
          else
            { o1 with dictionary := dictSet d0 "Length" (.raw (natDec o1.data.length)) }
        else o1
      let st2 := startObject st1 o2.objectNumber
      let st3 :=
        if o2.dictionary.length > 0 then emit st2 (hashToString o2.dictionary 0)
        else if o2.array.length > 0 then emit st2 (arrayToString o2.array)
        else st2
      let (o3, st4) :=
        if o2.data.length > 0 then
          let s1 := emit st3 (10 :: (ascii "stream" ++ [10]))
          let s2 := emit s1 o2.data
          let s3 := emit s2 (10 :: ascii "endstream")
          ({ o2 with data := [] }, s3)
        else (o2, st3)
      (o3, endObject st4)

/-! ## Cross-reference section (src/writer.go:561-601) -/

/-- `%010d`: decimal digits left-padded with zeros to width 10. -/
def zeroPad10 (n : Nat) : List Nat :=
  List.replicate (10 - (natDec n).length) 48 ++ natDec n

/-- One 20-byte xref entry line: object 0 is the free entry
`0000000000 65535 f `, every other object is `<offset> 00000 n `. -/
def xrefLine (onum : Nat) (pos : Nat) : List Nat :=
  if onum = 0 then zeroPad10 pos ++ ascii " 65535 f \n"
  else zeroPad10 pos ++ ascii " 00000 n \n"

/-- One iteration of the chunk-collection loop in `Finish`: state is the
current chunk (start object number and its positions) and the completed
chunks. -/
def xrefChunksStep (f : Nat → Option Nat)
    (st : Option (Nat × List Nat) × List (Nat × List Nat)) (i : Nat) :
    Option (Nat × List Nat) × List (Nat × List Nat) :=
  match f i with
  | some loc =>
      match st.1 with
      | none => (some (i, [loc]), st.2)
      | some c => (some (c.1, c.2 ++ [loc]), st.2)
  | none =>
      match st.1 with
      | none => (none, st.2)
      | some c => (none, st.2 ++ [c])

/-- The chunk list built by `Finish`: the loop runs over object numbers
`0 ≤ i ≤ nextobject` inclusive; a chunk still open after the loop is
dropped (the source appends `curchunk` only when a gap is found). -/
def xrefChunks (f : Nat → Option Nat) (nextobject : Nat) : List (Nat × List Nat) :=
  ((List.range (nextobject + 1)).foldl (xrefChunksStep f) (none, [])).2

/-- The rendering of one chunk: `"<start> <count>\n"` then one entry line
per recorded position. -/
def xrefSubsection (c : Nat × List Nat) : List Nat :=
  natDec c.1 ++ [32] ++ natDec c.2.length ++ [10] ++
  List.flatten (c.2.enum.map (fun ip => xrefLine (c.1 + ip.1) ip.2))

/-- The cross-reference section string built by `Finish` (the contents of
`str`, printed right after the `xref` keyword line). -/
def xrefSection (f : Nat → Option Nat) (nextobject : Nat) : List Nat :=
  List.flatten ((xrefChunks f nextobject).map xrefSubsection)

/-- Claim C1, spec side: an object number is recorded when the
object-location table has an entry for it. -/
def isRecorded (f : Nat → Option Nat) (i : Nat) : Bool := (f i).isSome

/-- Claim C1, spec side: the start points of the maximal contiguous runs
of recorded object numbers — a recorded number whose predecessor is not
recorded (or which is 0). -/
def runStarts (f : Nat → Option Nat) (n : Nat) : List Nat :=
  (List.range n).filter (fun i => isRecorded f i && (decide (i = 0) || !isRecorded f (i - 1)))

/-- Claim C1, spec side: the recorded positions of the maximal run
beginning at `s`: positions of consecutive recorded numbers from `s`. -/
def runPositions (f : Nat → Option Nat) (s : Nat) (n : Nat) : List Nat :=
  ((List.range' s (n - s)).takeWhile (isRecorded f)).map (fun j => (f j).getD 0)

/-- Claim C1, spec side: the maximal contiguous runs of recorded object
numbers, each with its subsection start and positions. -/
def specChunks (f : Nat → Option Nat) (n : Nat) : List (Nat × List Nat) :=
  (runStarts f n).map (fun s => (s, runPositions f s n))

/-- Claim C1, spec side: for each maximal contiguous run a subsection
header line `<start> <count>` followed by one fixed-width line per object
in the run — the free entry for object 0, the used entry otherwise. -/
def specXrefSection (f : Nat → Option Nat) (n : Nat) : List Nat :=
  List.flatten ((specChunks f n).map (fun c =>
    natDec c.1 ++ [32] ++ natDec c.2.length ++ [10] ++
    List.flatten (c.2.enum.map (fun ip =>
      if c.1 + ip.1 = 0 then zeroPad10 ip.2 ++ ascii " 65535 f \n"
      else zeroPad10 ip.2 ++ ascii " 00000 n \n"))))

/-! ## MD5 (crypto/md5), needed by `subsetTag` and the trailer ID -/

/-- 32-bit truncation. -/
def u32 (x : Nat) : Nat := x % 4294967296

/-- 32-bit rotate left by `s` (for `x < 2^32`, `s ≤ 32`). -/
def rotl32 (x s : Nat) : Nat := (x * 2 ^ s + x / 2 ^ (32 - s)) % 4294967296

/-- Bitwise complement on 32 bits. -/
def not32 (x : Nat) : Nat := Nat.xor x 4294967295

/-- The 64 MD5 sine-table constants. -/
def md5K : List Nat :=
  [0xd76aa478, 0xe8c7b756, 0x242070db, 0xc1bdceee,
   0xf57c0faf, 0x4787c62a, 0xa8304613, 0xfd469501,
   0x698098d8, 0x8b44f7af, 0xffff5bb1, 0x895cd7be,
   0x6b901122, 0xfd987193, 0xa679438e, 0x49b40821,
   0xf61e2562, 0xc040b340, 0x265e5a51, 0xe9b6c7aa,
   0xd62f105d, 0x02441453, 0xd8a1e681, 0xe7d3fbc8,
   0x21e1cde6, 0xc33707d6, 0xf4d50d87, 0x455a14ed,
   0xa9e3e905, 0xfcefa3f8, 0x676f02d9, 0x8d2a4c8a,
   0xfffa3942, 0x8771f681, 0x6d9d6122, 0xfde5380c,
   0xa4beea44, 0x4bdecfa9, 0xf6bb4b60, 0xbebfbc70,
   0x289b7ec6, 0xeaa127fa, 0xd4ef3085, 0x04881d05,
   0xd9d4d039, 0xe6db99e5, 0x1fa27cf8, 0xc4ac5665,
   0xf4292244, 0x432aff97, 0xab9423a7, 0xfc93a039,
   0x655b59c3, 0x8f0ccc92, 0xffeff47d, 0x85845dd1,
   0x6fa87e4f, 0xfe2ce6e0, 0xa3014314, 0x4e0811a1,
   0xf7537e82, 0xbd3af235, 0x2ad7d2bb, 0xeb86d391]

/-- The 64 MD5 per-round shift amounts. -/
def md5S : List Nat :=
  [7, 12, 17, 22, 7, 12, 17, 22, 7, 12, 17, 22, 7, 12, 17, 22,
   5, 9, 14, 20, 5, 9, 14, 20, 5, 9, 14, 20, 5, 9, 14, 20,
   4, 11, 16, 23, 4, 11, 16, 23, 4, 11, 16, 23, 4, 11, 16, 23,
   6, 10, 15, 21, 6, 10, 15, 21, 6, 10, 15, 21, 6, 10, 15, 21]

/-- Little-endian 4-byte encoding of a 32-bit value. -/
def le4 (x : Nat) : List Nat :=
  [x % 256, x / 256 % 256, x / 65536 % 256, x / 16777216 % 256]

/-- Little-endian 8-byte encoding of the bit length. -/
def le8 (x : Nat) : List Nat :=
  [x % 256, x / 256 % 256, x / 65536 % 256, x / 16777216 % 256,
   x / 4294967296 % 256, x / 1099511627776 % 256,
   x / 281474976710656 % 256, x / 72057594037927936 % 256]

/-- MD5 padding: a 0x80 byte, zeros up to 56 mod 64, and the bit length. -/
def md5Pad (msg : List Nat) : List Nat :=
  msg ++ [128] ++ List.replicate ((119 - msg.length % 64) % 64) 0 ++ le8 (msg.length * 8)

/-- Interpret a byte list as little-endian 32-bit words. -/
def leWords : List Nat → List Nat
  | a :: b :: c :: d :: rest => (a + 256 * b + 65536 * c + 16777216 * d) :: leWords rest
  | _ => []

/-- Split into 64-byte blocks; the fuel is the list length, which bounds
the number of blocks. -/
def chunksOf64 : Nat → List Nat → List (List Nat)
  | 0, _ => []
  | _, [] => []
  | fuel + 1, l => l.take 64 :: chunksOf64 fuel (l.drop 64)

/-- One of the 64 MD5 rounds. -/
def md5Round (M : Nat → Nat) (st : Nat × Nat × Nat × Nat) (i : Nat) :
    Nat × Nat × Nat × Nat :=
  let A := st.1
  let B := st.2.1
  let C := st.2.2.1
  let D := st.2.2.2
  let FG :=
    if i < 16 then (Nat.lor (Nat.land B C) (Nat.land (not32 B) D), i)
    else if i < 32 then (Nat.lor (Nat.land D B) (Nat.land (not32 D) C), (5 * i + 1) % 16)
    else if i < 48 then (Nat.xor B (Nat.xor C D), (3 * i + 5) % 16)
    else (Nat.xor C (Nat.lor B (not32 D)), (7 * i) % 16)
  let tmp := u32 (FG.1 + A + md5K.getD i 0 + M FG.2)
  (D, u32 (B + rotl32 tmp (md5S.getD i 0)), B, C)

/-- Process one 64-byte block. -/
def md5Block (st : Nat × Nat × Nat × Nat) (block : List Nat) :
    Nat × Nat × Nat × Nat :=
  let ws := leWords block
  let r := (List.range 64).foldl (md5Round (fun g => ws.getD g 0)) st
  (u32 (st.1 + r.1), u32 (st.2.1 + r.2.1), u32 (st.2.2.1 + r.2.2.1), u32 (st.2.2.2 + r.2.2.2))

/-- `md5.Sum`: the 16 digest bytes of a byte sequence. -/
def md5Bytes (msg : List Nat) : List Nat :=
  let padded := md5Pad msg
  let r := (chunksOf64 padded.length padded).foldl md5Block
    (0x67452301, 0xefcdab89, 0x98badcfe, 0x10325476)
  le4 r.1 ++ le4 r.2.1 ++ le4 r.2.2.1 ++ le4 r.2.2.2

/-- Upper-case hex digit character. -/
def hexCharU (d : Nat) : Nat := if d < 10 then 48 + d else 55 + d

/-- `fmt.Sprintf("%X", bytes)`: two upper-case hex digits per byte. -/
def hexUpper (bs : List Nat) : List Nat :=
  bs.flatMap (fun b => [hexCharU (b / 16 % 16), hexCharU (b % 16)])

/-! ## Font subset tag (src/unnamed/part_002:226, `subsetTag`) -/

/-- Go map read on the variation-settings map. -/
def varLookup {V : Type} : List (String × V) → String → Option V
  | [], _ => none
  | (k, v) :: rest, key => if k = key then some v else varLookup rest key

/-- `subsetTag` from src/unnamed/part_002:226.  Glyph IDs (`ot.GlyphID`,
`uint16`) are Nats below 2^16; the variation-settings map is an
association list; the `%.2f` rendering of the `float64` axis value is the
collaborator parameter `fmtVal` (IEEE-754 decimal formatting is outside
the embedding; every theorem below holds for every such rendering).
`sort.Slice` with a `<` comparator produces the ascending reordering,
which is unique as a list of Nats; `sort.Strings` likewise.  Note the
letter computation: the two digest bytes are added AS BYTES (uint8
arithmetic, wrapping at 256) before the mod-26 reduction. -/
def subsetTag {V : Type} (fmtVal : V → List Nat)
    (glyphs : List Nat) (variations : List (String × V)) : List Nat :=
  let sorted := List.insertionSort (fun a b => a ≤ b) glyphs
  let data := sorted.flatMap (fun g => [Nat.land (g / 256) 255, Nat.land g 255])
  let data :=
    if variations.length > 0 then
      data ++ (List.insertionSort (fun a b => a ≤ b) (variations.map Prod.fst)).flatMap
        (fun k =>
          ascii k ++ [58] ++
          (match varLookup variations k with
           | some v => fmtVal v
           | none => []))
    else data
  let sum := md5Bytes data
  (List.range 6).map (fun i => (sum.getD (2 * i) 0 + sum.getD (2 * i + 1) 0) % 256 % 26 + 65)

/-- Claim C6, spec side (the reference definition in the claim): sort the
glyph IDs ascending, serialize each as 2 big-endian bytes, append a
`tag:value` rendering of each variation setting with axis tags in sorted
order, take the MD5 digest, and map each of the first 6 digest byte pairs
`(b0, b1)` to the letter `A + ((b0 + b1) mod 26)` — with no wraparound at
256 before the mod-26 reduction. -/
def specSubsetTag {V : Type} (fmtVal : V → List Nat)
    (glyphs : List Nat) (variations : List (String × V)) : List Nat :=
  let sorted := List.insertionSort (fun a b => a ≤ b) glyphs
  let data := sorted.flatMap (fun g => [g / 256 % 256, g % 256])
  let data :=
    if variations.length > 0 then
      data ++ (List.insertionSort (fun a b => a ≤ b) (variations.map Prod.fst)).flatMap
        (fun k =>
          ascii k ++ [58] ++
          (match varLookup variations k with
           | some v => fmtVal v
           | none => []))
    else data
  let sum := md5Bytes data
  (List.range 6).map (fun i => (sum.getD (2 * i) 0 + sum.getD (2 * i + 1) 0) % 26 + 65)

/-- Claim C6, amended spec side: as `specSubsetTag` but with the byte
pair added with uint8 wraparound, as the source does. -/
def specSubsetTagAmended {V : Type} (fmtVal : V → List Nat)
    (glyphs : List Nat) (variations : List (String × V)) : List Nat :=
  let sorted := List.insertionSort (fun a b => a ≤ b) glyphs
  let data := sorted.flatMap (fun g => [g / 256 % 256, g % 256])
  let data :=
    if variations.length > 0 then
      data ++ (List.insertionSort (fun a b => a ≤ b) (variations.map Prod.fst)).flatMap
        (fun k =>
          ascii k ++ [58] ++
          (match varLookup variations k with
           | some v => fmtVal v
           | none => []))
    else data
  let sum := md5Bytes data
  (List.range 6).map (fun i => (sum.getD (2 * i) 0 + sum.getD (2 * i + 1) 0) % 256 % 26 + 65)

/-! ## Outlines (src/writer.go:502-547, `writeOutline`) -/

/-- The `Outline` struct: children, title (code points), the already
serialized destination string (`Serialize` of a Go string returns it
verbatim), and the Open flag. -/
inductive OutlineT where
  | mk : List OutlineT → List Nat → List Nat → Bool → OutlineT

def OutlineT.children : OutlineT → List OutlineT
  | .mk c _ _ _ => c

def OutlineT.title : OutlineT → List Nat
  | .mk _ t _ _ => t

def OutlineT.dest : OutlineT → List Nat
  | .mk _ _ d _ => d

def OutlineT.isOpen : OutlineT → Bool
  | .mk _ _ _ o => o

/-- The loop body of `writeOutline`.  On entry every outline of the
current list has already been assigned consecutive object numbers
starting at `selfNum` (the number-assignment loop at the top of
`writeOutline`); `counter` is `pw.nextobject`; `isFirst` tells whether
the current node is the first of its sibling list.  Returns the `last`
object number, the count `c`, the new counter, and the dictionaries of
the saved outline objects in the order `Object.Save` is called on them
(all descendants of a node before the node itself, siblings in order). -/
def outlineLoop (isFirst : Bool) (outlines : List OutlineT)
    (parentNum selfNum counter : Nat) :
    Nat × Nat × Nat × List (Nat × DictM) :=
  match outlines with
  | [] => (0, 0, counter, [])
  | o :: rest =>
      let d0 : DictM :=
        [("Parent", .raw (refStr parentNum)),
         ("Title", .raw (stringToPDF o.title)),
         ("Dest", .raw o.dest)]
      let d1 := if rest.length > 0 then d0 ++ [("Next", .raw (refStr (selfNum + 1)))] else d0
      let d2 := if isFirst = false then d1 ++ [("Prev", .raw (refStr (selfNum - 1)))] else d1
      let cres :=
        if o.children.length > 0 then
          let childFirst := counter
          let counter1 := counter + o.children.length
          let r := outlineLoop true o.children selfNum childFirst counter1
          (d2 ++ [("First", .raw (refStr childFirst)),
                  ("Last", .raw (refStr r.1)),
                  ("Count", .raw (if o.isOpen then natDec r.2.1 else ascii "-1"))],
           r.2.1, r.2.2.1, r.2.2.2)
        else (d2, 0, counter, [])
      let rrest := outlineLoop false rest parentNum (selfNum + 1) cres.2.2.1
      let lastv := if rest.length = 0 then selfNum else rrest.1
      (lastv, 1 + cres.2.1 + rrest.2.1, rrest.2.2.1,
       cres.2.2.2 ++ [(selfNum, cres.1)] ++ rrest.2.2.2)
termination_by sizeOf outlines
decreasing_by
  all_goals simp_wf
  all_goals first
    | omega
    | (have h1 : sizeOf o.children < sizeOf o := by
         cases o
         simp [OutlineT.children]
         omega
       omega)

/-- `writeOutline` (src/writer.go:502): assign consecutive object numbers
to the list, then run the loop.  Returns `(first, last, c, counter,
dicts)`. -/
def writeOutlineM (outlines : List OutlineT) (parentNum counter : Nat) :
    Nat × Nat × Nat × Nat × List (Nat × DictM) :=
  let selfStart := counter
  let counter1 := counter + outlines.length
  let r := outlineLoop true outlines parentNum selfStart counter1
  let first := if outlines.length = 0 then 0 else selfStart
  (first, r.1, r.2.1, r.2.2.1, r.2.2.2)

/-- The count computed by `writeOutline` for a list of outlines: every
node of the forest is counted, whether visible or not. -/
def totalCount : List OutlineT → Nat
  | [] => 0
  | o :: rest => 1 + totalCount o.children + totalCount rest
termination_by l => sizeOf l
decreasing_by
  all_goals simp_wf
  all_goals first
    | omega
    | (have h1 : sizeOf o.children < sizeOf o := by
         cases o
         simp [OutlineT.children]
         omega
       omega)

/-- Claim C9, spec side: the number of visible descendants of a node with
the given children — each child counts once, and the descendants of a
child are visible only when that child is open. -/
def visibleCount : List OutlineT → Nat
  | [] => 0
  | o :: rest =>
      1 + (if o.isOpen then visibleCount o.children else 0) + visibleCount rest
termination_by l => sizeOf l
decreasing_by
  all_goals simp_wf
  all_goals first
    | omega
    | (have h1 : sizeOf o.children < sizeOf o := by
         cases o
         simp [OutlineT.children]
         omega
       omega)

/-- The nodes of an outline forest in the order their dictionaries are
saved: all descendants of a node first, then the node, siblings in order. -/
def outlineNodes : List OutlineT → List OutlineT
  | [] => []
  | o :: rest => outlineNodes o.children ++ [o] ++ outlineNodes rest
termination_by l => sizeOf l
decreasing_by
  all_goals simp_wf
  all_goals first
    | omega
    | (have h1 : sizeOf o.children < sizeOf o := by
         cases o
         simp [OutlineT.children]
         omega
       omega)

/-! ## PDF box geometry (src/imagefile.go:200-280) -/

/-- A gofpdi box-dimension map (`map[string]float64`).  The `float64`
values are modelled as rationals: the modelled code only compares,
copies and subtracts them. -/
abbrev BoxM := List (String × ℚ)

/-- Go map read with the zero value for missing keys. -/
def boxGet (b : BoxM) (k : String) : ℚ :=
  match b with
  | [] => 0
  | (k0, v) :: rest => if k0 = k then v else boxGet rest k

/-- Go map assignment. -/
def boxSet (b : BoxM) (k : String) (v : ℚ) : BoxM :=
  match b with
  | [] => [(k, v)]
  | (k0, v0) :: rest => if k0 = k then (k, v) :: rest else (k0, v0) :: boxSet rest k v

/-- `intersectBox` (src/imagefile.go:201): copy the box, clamp each edge
inward against the media box, then fill `x`, `y`, `w`, `h`. -/
def intersectBox (bx mediabox : BoxM) : BoxM :=
  let b0 := bx
  let b1 := if boxGet bx "lly" < boxGet mediabox "lly" then boxSet b0 "lly" (boxGet mediabox "lly") else b0
  let b2 := if boxGet bx "llx" < boxGet mediabox "llx" then boxSet b1 "llx" (boxGet mediabox "llx") else b1
  let b3 := if boxGet bx "ury" > boxGet mediabox "ury" then boxSet b2 "ury" (boxGet mediabox "ury") else b2
  let b4 := if boxGet bx "urx" > boxGet mediabox "urx" then boxSet b3 "urx" (boxGet mediabox "urx") else b3
  let b5 := boxSet b4 "x" (boxGet b4 "llx")
  let b6 := boxSet b5 "y" (boxGet b5 "lly")
  let b7 := boxSet b6 "w" (boxGet b6 "urx" - boxGet b6 "llx")
  boxSet b7 "h" (boxGet b7 "ury" - boxGet b7 "lly")

/-- The per-page box table (`PageSizes[p]`): box name to dimension map. -/
abbrev PageBoxes := List (String × BoxM)

/-- Go map read returning the nil map for missing keys. -/
def pageBoxGet (pg : PageBoxes) (k : String) : BoxM :=
  match pg with
  | [] => []
  | (k0, v) :: rest => if k0 = k then v else pageBoxGet rest k

/-- Go map read of `imgf.PageSizes[p]`: the nil (empty) page map when
the page is missing. -/
def pageSizesGet : List (Nat × PageBoxes) → Nat → PageBoxes
  | [], _ => []
  | (k, v) :: rest, key => if k = key then v else pageSizesGet rest key

/-- `GetPDFBoxDimensions` (src/imagefile.go:558): after the page-bound
check, the stored box map for `boxname` is looked up.  When that map is
empty, `/CropBox` falls back to the RAW stored `/MediaBox` map,
`/ArtBox`, `/BleedBox` and `/TrimBox` recurse as a `/CropBox` request,
and any other name is an error.  A present `/MediaBox` is returned RAW
(no intersection, no x/y/w/h normalization); every other present box is
intersected against the stored `/MediaBox`. -/
def getPDFBoxDimensions (pageSizes : List (Nat × PageBoxes)) (numberOfPages : Nat)
    (p : Nat) (boxname : String) : Except (List Nat) BoxM :=
  if p > numberOfPages then
    .error (ascii "cannot get the page number")
  else
    let bx := pageBoxGet (pageSizesGet pageSizes p) boxname
    if bx.length = 0 then
      if boxname = "/CropBox" then
        .ok (pageBoxGet (pageSizesGet pageSizes p) "/MediaBox")
      else if h : boxname = "/ArtBox" ∨ boxname = "/BleedBox" ∨ boxname = "/TrimBox" then
        getPDFBoxDimensions pageSizes numberOfPages p "/CropBox"
      else
        .error (ascii "could not find the box dimensions for the image")
    else if boxname = "/MediaBox" then .ok bx
    else .ok (intersectBox bx (pageBoxGet (pageSizesGet pageSizes p) "/MediaBox"))
termination_by if boxname = "/CropBox" then 0 else 1
decreasing_by
  rcases h with h | h | h <;> subst h <;> decide

/-! ## Pages, `AddPage`, `writeDocumentCatalogAndPages` and `Finish`
(src/writer.go:225-624) -/

/-- The slice of a `Page` that the modelled code paths touch: the page
object number, the content-stream `Object`, and the filenames of the
images placed on the page (images are identified by their filename,
which is also the sort key used for reproducible output).  Geometry,
faces, annotations and the extension dictionary are consumed only by the
part of `writeDocumentCatalogAndPages` that runs after the zero-page
check, which is the `rest` parameter below. -/
structure PageM where
  objnum : Nat
  contentStream : Obj
  images : List String

/-- The document state: writer state, pages, info dictionary. -/
structure DocM where
  w : PDFW
  pages : List PageM
  infoDict : DictM

/-- `PDF.AddPage` (src/writer.go:228): allocate an object number when 0
is passed, set the ForceStream flag on the content object, and append
the page. -/
def addPage (d : DocM) (content : Obj) (page : Nat) : PageM × DocM :=
  let pn := if page = 0 then nextObjNum d.w else (page, d.w)
  let content1 := { content with forceStream := true }
  let pg : PageM := { objnum := pn.1, contentStream := content1, images := [] }
  (pg, { d with w := pn.2, pages := d.pages ++ [pg] })

/-- The prefix of `writeDocumentCatalogAndPages` (src/writer.go:261-295)
followed by the remainder: save every page content stream (collecting
the used images), allocate the Pages object number, finish the sorted
used images (their finish errors are discarded by the source), and stop
with an error when there are no pages.  `imgFinish` is the external
image-finishing collaborator (src/imagefile.go `finish`); `rest` models
the remainder of the function (page dictionaries, annotations, the Pages
object, outlines, name destinations, the catalog and the face finishing,
src/writer.go:297-485), which is reached only when at least one page
exists. -/
def writeDocCatalogAndPages (deflate : List Nat → List Nat)
    (imgFinish : String → PDFW → PDFW)
    (rest : DocM → Nat → Except (List Nat) Nat × DocM)
    (d : DocM) : Except (List Nat) Nat × DocM :=
  let saved := d.pages.foldl
    (fun (acc : List PageM × PDFW) pg =>
      let r := objSave deflate pg.contentStream acc.2
      (acc.1 ++ [{ pg with contentStream := r.1 }], r.2))
    ([], d.w)
  let usedImages := (saved.1.flatMap (fun pg => pg.images)).dedup
  let pn := nextObjNum saved.2
  let sortedImages := List.insertionSort (fun a b => a ≤ b) usedImages
  let w2 := sortedImages.foldl (fun w img => imgFinish img w) pn.2
  let d1 := { d with pages := saved.1, w := w2 }
  if saved.1.length = 0 then (.error (ascii "no pages in document"), d1)
  else rest d1 pn.1

/-- `PDF.writeInfoDict` (src/writer.go:251): below PDF 2.0 the info
dictionary is written as an object. -/
def writeInfoDict (deflate : List Nat → List Nat) (d : DocM) : Option Obj × DocM :=
  if d.w.major < 2 then
    let r := newObject d.w
    let o := { r.1 with dictionary := d.infoDict }
    let r2 := objSave deflate o r.2
    (some r2.1, { d with w := r2.2 })
  else (none, d)

/-- `PDF.Finish` (src/writer.go:550): document body, info dictionary,
xref section, trailer.  An error from `writeDocumentCatalogAndPages`
aborts before anything else is written. -/
def pdfFinish (deflate : List Nat → List Nat)
    (imgFinish : String → PDFW → PDFW)
    (rest : DocM → Nat → Except (List Nat) Nat × DocM)
    (d : DocM) : Except (List Nat) Unit × DocM :=
  match writeDocCatalogAndPages deflate imgFinish rest d with
  | (.error e, d1) => (.error e, d1)
  | (.ok dc, d1) =>
      let ir := writeInfoDict deflate d1
      let d2 := ir.2
      let str := xrefSection (locGet d2.w.objectlocations) d2.w.nextobject
      let xrefpos := d2.w.pos
      let w1 := pwPrintln d2.w (ascii "xref")
      let w2 := pwPrint w1 str
      let sum := hexUpper (md5Bytes str)
      let trailer0 : DictM :=
        [("Size", .raw (natDec d2.w.nextobject)),
         ("Root", .raw (refStr dc)),
         ("ID", .raw (91 :: 60 :: sum ++ [62, 32, 60] ++ sum ++ [62, 93]))]
      let trailer1 :=
        match ir.1 with
        | some info => dictSet trailer0 "Info" (.raw (refStr info.objectNumber))
        | none => trailer0
      let w3 := pwPrintln w2 (ascii "trailer")
      let w4 := pwPrint w3 (hashToString trailer1 0)
      let w5 := pwPrint w4 (10 :: (ascii "startxref" ++ [10] ++ natDec xrefpos ++ [10] ++ ascii "%%EOF" ++ [10]))
      (.ok (), { d2 with w := w5 })

/-! ## Remaining spec-side definitions for the claims -/

/-- Claim C8, amended spec side: the per-character replacement actually
performed on name characters outside any `#20` occurrence: slash, `#`,
`(` and `)` are escaped, everything else (including the space) is copied. -/
def escNameChar (c : Nat) : List Nat :=
  if c = 47 then ascii "#2f"
  else if c = 35 then ascii "#23"
  else if c = 40 then ascii "#28"
  else if c = 41 then ascii "#29"
  else [c]

/-- Claim C4, spec side: decoding of one PDF literal-string escape
character (ISO 32000 7.3.4.2): `n r t b f ( ) \` stand for the
corresponding characters. -/
def pdfUnescapeChar (c : Nat) : Nat :=
  if c = 110 then 10
  else if c = 114 then 13
  else if c = 116 then 9
  else if c = 98 then 8
  else if c = 102 then 12
  else c

/-- Claim C4, spec side: decoder for the body of a PDF literal string
(between the parentheses): a backslash starts an escape, any other byte
stands for itself. -/
def pdfLiteralDecode : List Nat → List Nat
  | [] => []
  | 92 :: c :: rest => pdfUnescapeChar c :: pdfLiteralDecode rest
  | c :: rest => c :: pdfLiteralDecode rest

/-- Claim C4, spec side: value of a lower-case hex digit character. -/
def hexVal (c : Nat) : Option Nat :=
  if 48 ≤ c ∧ c ≤ 57 then some (c - 48)
  else if 97 ≤ c ∧ c ≤ 102 then some (c - 87)
  else none

/-- Claim C4, spec side: parse hex characters in groups of four into
UTF-16 code units. -/
def hexQuads : List Nat → Option (List Nat)
  | [] => some []
  | a :: b :: c :: d :: rest =>
      match hexVal a, hexVal b, hexVal c, hexVal d, hexQuads rest with
      | some va, some vb, some vc, some vd, some vs =>
          some ((((va * 16 + vb) * 16 + vc) * 16 + vd) :: vs)
      | _, _, _, _, _ => none
  | _ => none

/-- Claim C4, spec side: decode a UTF-16 code-unit sequence back to code
points: a high surrogate followed by a low surrogate forms a
supplementary code point, anything else stands for itself. -/
def utf16Decode : List Nat → List Nat
  | [] => []
  | u1 :: u2 :: rest =>
      if 55296 ≤ u1 ∧ u1 < 56320 then
        (65536 + (u1 - 55296) * 1024 + (u2 - 56320)) :: utf16Decode rest
      else u1 :: utf16Decode (u2 :: rest)
  | [u] => [u]

/-- Claim C4, spec side: a Unicode scalar value (what a Go rune obtained
by ranging over a valid string always is). -/
def isScalar (c : Nat) : Prop := c < 55296 ∨ (57343 < c ∧ c < 1114112)

instance : DecidablePred isScalar := fun c => by
  unfold isScalar
  infer_instance

/-- Claim C4, spec side: full decoder for the hex form
`<feff…>`: require the angle brackets and the byte-order mark, parse hex
quads, decode UTF-16. -/
def pdfHexDecode (out : List Nat) : Option (List Nat) :=
  match out with
  | 60 :: 102 :: 101 :: 102 :: 102 :: rest =>
      match rest.getLast? with
      | some 62 =>
          match hexQuads (rest.dropLast) with
          | some units => some (utf16Decode units)
          | none => none
      | _ => none
  | _ => none

/-- Claim C9, spec side: the `/Count` value the claim predicts for a node
with children: the visible descendant count, negated when the node is
collapsed. -/
def specCountEntry (o : OutlineT) : Option (List Nat) :=
  if o.children.length = 0 then none
  else some (if o.isOpen then intDec (visibleCount o.children)
             else intDec (-(visibleCount o.children : Int)))

/-- Claim C9, amended spec side: the `/Count` value the source emits for
a node with children: the full descendant count (hidden nodes included)
when open, the literal `-1` when collapsed. -/
def amendedCountEntry (o : OutlineT) : Option (List Nat) :=
  if o.children.length = 0 then none
  else some (if o.isOpen then natDec (totalCount o.children) else ascii "-1")

/-- The observable fields of a box-dimension result (proof-side helper
for stating concrete evaluations). -/
def boxFields (r : Except (List Nat) BoxM) : Option (List ℚ) :=
  match r with
  | .ok b => some [boxGet b "llx", boxGet b "lly", boxGet b "urx", boxGet b "ury",
      boxGet b "w", boxGet b "h"]
  | .error _ => none

/-! ## Helper lemmas -/

theorem pdfNameReplace_cons (c : Nat) (rest : List Nat) (hc : c ≠ 35) :
    pdfNameReplace (c :: rest) = escNameChar c ++ pdfNameReplace rest := by
  by_cases h47 : c = 47
  · subst h47
    simp [pdfNameReplace, escNameChar, ascii]
  · by_cases h40 : c = 40
    · subst h40
      simp [pdfNameReplace, escNameChar, ascii]
    · by_cases h41 : c = 41
      · subst h41
        simp [pdfNameReplace, escNameChar, ascii]
      · rw [show escNameChar c = [c] by simp [escNameChar, hc, h47, h40, h41]]
        rw [pdfNameReplace.eq_def]
        split
        · simp_all
        · simp_all
        · simp_all
        · simp_all
        · simp_all
        · simp_all
        · simp_all

theorem pdfNameReplace_no_hash (s : List Nat) (hs : ∀ c ∈ s, c ≠ 35) :
    pdfNameReplace s = s.flatMap escNameChar := by
  induction s with
  | nil => simp [pdfNameReplace]
  | cons c rest ih =>
      rw [pdfNameReplace_cons c rest (hs c (by simp))]
      simp only [List.flatMap_cons]
      rw [ih (fun x hx => hs x (by simp [hx]))]

theorem emit_objectlocations (st : PDFW) (bs : List Nat) :
    (emit st bs).objectlocations = st.objectlocations := rfl

theorem ensureHead_objectlocations (st : PDFW) :
    (ensureHead st).objectlocations = st.objectlocations := by
  unfold ensureHead
  split <;> rfl

theorem pwPrint_objectlocations (st : PDFW) (bs : List Nat) :
    (pwPrint st bs).objectlocations = st.objectlocations := by
  unfold pwPrint
  rw [emit_objectlocations, ensureHead_objectlocations]

theorem pwPrintln_objectlocations (st : PDFW) (bs : List Nat) :
    (pwPrintln st bs).objectlocations = st.objectlocations := by
  unfold pwPrintln
  rw [pwPrint_objectlocations]

theorem eol_objectlocations (st : PDFW) :
    (eol st).objectlocations = st.objectlocations := by
  unfold eol
  dsimp only
  split
  · simp [pwPrintln_objectlocations, ensureHead_objectlocations]
  · simp [ensureHead_objectlocations]

theorem endObject_objectlocations (st : PDFW) :
    (endObject st).objectlocations = st.objectlocations := by
  unfold endObject
  rw [pwPrintln_objectlocations, eol_objectlocations]

theorem locGet_locSet_self (l : List (Nat × Nat)) (k v : Nat) :
    locGet (locSet l k v) k = some v := by
  induction l with
  | nil => simp [locSet, locGet]
  | cons p rest ih =>
      by_cases hk : p.1 = k
      · simp [locSet, hk, locGet]
      · simp [locSet, hk, locGet, ih]

theorem locGet_startObject (st : PDFW) (onum : Nat) :
    locGet (startObject st onum).objectlocations onum = some ((ensureHead st).pos + 1) := by
  unfold startObject
  rw [pwPrint_objectlocations]
  exact locGet_locSet_self _ _ _

theorem objSave_saved (deflate : List Nat → List Nat) (o : Obj) (st : PDFW) :
    (objSave deflate o st).1.saved = true := by
  rw [objSave]
  split
  · simpa using (by assumption)
  · dsimp only
    split
    · rfl
    · dsimp only
      simp only [apply_ite (Prod.fst : Obj × PDFW → Obj),
        apply_ite Obj.saved]
      split <;> split <;> simp_all <;> split <;> simp_all

/-! ## Claim C2 -/

/-- C2: for every Object, a second (or later) `Save()` is a no-op — the
pair (object state, writer state) after saving twice equals the pair
after saving once, so the output bytes, the running position and the
object-location table are unchanged by the second call; and the first
`Save()` of an unsaved object enters its byte offset into the
object-location table. -/
theorem c2_save_idempotent (deflate : List Nat → List Nat) (o : Obj) (st : PDFW) :
    objSave deflate (objSave deflate o st).1 (objSave deflate o st).2 = objSave deflate o st ∧
    (o.saved = false →
      (locGet (objSave deflate o st).2.objectlocations o.objectNumber).isSome = true) := by
  constructor
  · have h := objSave_saved deflate o st
    set p := objSave deflate o st with hp
    rw [objSave]
    simp [h]
  · intro hsaved
    rw [objSave]
    simp only [hsaved, Bool.false_eq_true, if_false]
    dsimp only
    split
    · split
      · rw [endObject_objectlocations, emit_objectlocations]
        simp [locGet_startObject]
      · rw [endObject_objectlocations, emit_objectlocations]
        simp [locGet_startObject]
    · dsimp only
      repeat' split
      all_goals rw [endObject_objectlocations]
      all_goals simp [emit_objectlocations, pwPrint_objectlocations, locGet_startObject]

/-- C2 witness: a concrete unsaved object saved into a concrete writer
state. -/
theorem c2_save_idempotent_witness :
    (newObjWithNumber 3).saved = false ∧
    (locGet (objSave id (newObjWithNumber 3)
        ⟨[], 0, 0, 4, [(0, 0)], 1, 7⟩).2.objectlocations 3).isSome = true :=
  ⟨rfl, (c2_save_idempotent id (newObjWithNumber 3) ⟨[], 0, 0, 4, [(0, 0)], 1, 7⟩).2 rfl⟩

/-! ## Claim C8 (corrected) -/

/-- C8 counterexample: the claim says a space in a name is escaped as
`#20`; the source replacer maps the literal substring `#20` TO a space
and leaves spaces untouched, so `Name("a b").String()` is `/a b`, not
`/a#20b`. -/
theorem c8_counterexample :
    nameString (ascii "a b") = ascii "/a b" ∧ nameString (ascii "a b") ≠ ascii "/a#20b" := by
  decide

theorem pdfNameReplace_lone_hash (rest : List Nat) (h2 : rest.take 2 ≠ [50, 48]) :
    pdfNameReplace (35 :: rest) = 35 :: 50 :: 51 :: pdfNameReplace rest := by
  rcases rest with _ | ⟨c, rest⟩
  · rfl
  · rcases rest with _ | ⟨d, r⟩
    · by_cases hc : c = 50
      · subst hc; rfl
      · simp [pdfNameReplace, hc]
    · by_cases hc : c = 50
      · by_cases hd : d = 48
        · exact absurd (by subst hc; subst hd; rfl) h2
        · subst hc
          simp [pdfNameReplace, hd]
      · simp [pdfNameReplace, hc]

/-- Claim C8 (amended): `Name.String()` always yields a leading slash
(one existing leading slash is not duplicated); on names free of `#`,
each slash, `(` and `)` is replaced by `#2f`, `#28`, `#29` and every
other character — the space included — is copied unchanged; the literal
substring `#20` is replaced by a space; and a `#` NOT followed by the
digits `20` is escaped as `#23`. -/
theorem c8_name_rendering (n s rest rest₂ : List Nat) (hs : ∀ c ∈ s, c ≠ 35)
    (h2 : rest₂.take 2 ≠ [50, 48]) :
    (nameString n).head? = some 47 ∧
    pdfNameReplace s = s.flatMap escNameChar ∧
    pdfNameReplace (35 :: 50 :: 48 :: rest) = 32 :: pdfNameReplace rest ∧
    pdfNameReplace (35 :: rest₂) = 35 :: 50 :: 51 :: pdfNameReplace rest₂ := by
  refine ⟨rfl, pdfNameReplace_no_hash s hs, ?_, pdfNameReplace_lone_hash rest₂ h2⟩
  simp [pdfNameReplace]

/-- C8 witness at a concrete name: `/A B(x)` keeps its space, `#20z`
becomes ` z`, and `#ab` becomes `#23ab`. -/
theorem c8_name_rendering_witness :
    (∀ c ∈ ascii "A B(x)", c ≠ 35) ∧
    (ascii "ab").take 2 ≠ [50, 48] ∧
    ((nameString (ascii "/A B(x)")).head? = some 47 ∧
     pdfNameReplace (ascii "A B(x)") = (ascii "A B(x)").flatMap escNameChar ∧
     pdfNameReplace (35 :: 50 :: 48 :: ascii "z") = 32 :: pdfNameReplace (ascii "z") ∧
     pdfNameReplace (35 :: ascii "ab") = 35 :: 50 :: 51 :: pdfNameReplace (ascii "ab")) :=
  ⟨by decide, by decide,
   c8_name_rendering (ascii "/A B(x)") (ascii "A B(x)") (ascii "z") (ascii "ab")
     (by decide) (by decide)⟩
theorem dictLookup_dictSet_self (d : DictM) (k : String) (v : PDFVal) :
    dictLookup (dictSet d k v) k = some v := by
  induction d with
  | nil => simp [dictSet, dictLookup]
  | cons p rest ih =>
      by_cases hk : p.1 = k
      · simp [dictSet, hk, dictLookup]
      · simp [dictSet, hk, dictLookup, ih]

theorem dictSet_length_pos (d : DictM) (k : String) (v : PDFVal) :
    0 < (dictSet d k v).length := by
  cases d with
  | nil => simp [dictSet]
  | cons p rest =>
      by_cases hk : p.1 = k <;> simp [dictSet, hk]

theorem pwPrint_eq (st : PDFW) (bs : List Nat) (h : st.pos ≠ 0) :
    pwPrint st bs = { st with output := st.output ++ bs, pos := st.pos + bs.length } := by
  unfold pwPrint ensureHead
  rw [if_neg h]
  rfl

theorem startObject_eq (st : PDFW) (onum : Nat) (h : st.pos ≠ 0) :
    startObject st onum =
      { st with
        objectlocations := locSet st.objectlocations onum (st.pos + 1),
        output := st.output ++ (10 :: (natDec onum ++ ascii " 0 obj" ++ [10])),
        pos := st.pos + (10 :: (natDec onum ++ ascii " 0 obj" ++ [10])).length } := by
  unfold startObject ensureHead
  rw [if_neg h]
  dsimp only
  rw [pwPrint_eq]
  · rfl
  · exact h

theorem eol_eq (st : PDFW) (h : st.pos ≠ 0) (h2 : st.pos ≠ st.lastEOL) :
    eol st = { st with output := st.output ++ [10], pos := st.pos + 1, lastEOL := st.pos + 1 } := by
  unfold eol ensureHead
  rw [if_neg h]
  dsimp only
  rw [if_pos h2]
  unfold pwPrintln
  rw [pwPrint_eq]
  · simp
  · exact h

theorem endObject_eq (st : PDFW) (h : st.pos ≠ 0) (h2 : st.pos ≠ st.lastEOL) :
    endObject st =
      { st with
        output := st.output ++ [10] ++ (ascii "endobj" ++ [10]),
        pos := st.pos + 1 + 7, lastEOL := st.pos + 1 } := by
  unfold endObject
  rw [eol_eq st h h2]
  unfold pwPrintln
  rw [pwPrint_eq]
  · simp [ascii]
  · dsimp only
    omega

theorem dictLookup_dictSet_ne (d : DictM) (k k2 : String) (v : PDFVal) (h : k ≠ k2) :
    dictLookup (dictSet d k v) k2 = dictLookup d k2 := by
  induction d with
  | nil => simp [dictSet, dictLookup, h]
  | cons p rest ih =>
      by_cases hk : p.1 = k
      · obtain ⟨k0, v0⟩ := p
        simp only at hk
        subst hk
        simp [dictSet, dictLookup, h]
      · obtain ⟨k0, v0⟩ := p
        simp only at hk
        by_cases hk2 : k0 = k2
        · simp [dictSet, dictLookup, hk, hk2, Ne.symm h]
        · simp [dictSet, dictLookup, hk, hk2, ih]

/-- The compress branch of `Object.Save` on an empty data buffer: the
dictionary receives `Filter /FlateDecode`, `Length` set to the length of
the COMPRESSED (non-empty) byte sequence and `Length1 0`, and because the
compressed buffer is non-empty a `stream`/`endstream` wrapper is written
around it. -/
theorem objSave_compress_empty (deflate : List Nat → List Nat) (o : Obj) (st : PDFW)
    (h1 : o.saved = false) (h2 : o.raw = false) (h3 : o.compress = true)
    (h4 : o.forceStream = true) (h5 : o.data = []) (h6 : o.comment = [])
    (h7 : st.pos ≠ 0) (h8 : st.lastEOL ≤ st.pos)
    (h9 : (deflate []).length ≠ 0) :
    dictLookup (objSave deflate o st).1.dictionary "Length" =
      some (.raw (natDec (deflate []).length)) ∧
    (objSave deflate o st).2.output =
      st.output ++ (10 :: (natDec o.objectNumber ++ ascii " 0 obj" ++ [10])) ++
        hashToString (objSave deflate o st).1.dictionary 0 ++
        (10 :: (ascii "stream" ++ [10])) ++ deflate [] ++ (10 :: ascii "endstream") ++
        ([10] ++ ascii "endobj" ++ [10]) := by
  rw [objSave]
  simp only [h1, Bool.false_eq_true, if_false]
  dsimp only
  simp only [h2, h3, h4, h5, h6, Bool.false_eq_true, if_false, ne_eq,
    not_true_eq_false, List.length_nil, lt_irrefl, false_or, if_true, ite_self,
    decide_False, Bool.false_or, Bool.or_true, reduceIte]
  rw [if_pos (dictSet_length_pos _ _ _)]
  rw [if_pos (Nat.pos_of_ne_zero h9)]
  rw [startObject_eq _ _ h7]
  dsimp only [emit]
  rw [endObject_eq _ (by simp only [List.length_cons, List.length_append]; omega)
    (by simp only [List.length_cons, List.length_append]; omega)]
  constructor
  · rw [dictLookup_dictSet_ne _ _ _ _ (by decide)]
    exact dictLookup_dictSet_self _ _ _
  · dsimp only
    simp [List.append_assoc, List.singleton_append, List.cons_append]

/-- Claim C10, counterexample: an `Object` with ForceStream set, an
empty Data buffer AND compression enabled — inside the claim's universal
("for every Object saved with its ForceStream flag set and an empty Data
buffer").  `Save` zlib-compresses the empty buffer; Go's zlib emits a
non-empty stream even for empty input (the 2-byte header, an empty final
deflate block and the adler32 checksum — 8 bytes, modelled by the
`deflate` collaborator returning `[120, 156, 3, 0, 0, 0, 0, 1]`), so the
dictionary's `Length` entry becomes `8`, not `0`, and a
`stream`/`endstream` wrapper IS written around the compressed bytes. -/
theorem c10_counterexample :
    dictLookup (objSave (fun _ => [120, 156, 3, 0, 0, 0, 0, 1])
        ⟨2, [], [], [], false, true, true, [], false⟩
        ⟨ascii "x", 1, 0, 3, [(0, 0)], 1, 7⟩).1.dictionary "Length" =
      some (.raw (ascii "8")) ∧
    ascii "8" ≠ ascii "0" ∧
    (objSave (fun _ => [120, 156, 3, 0, 0, 0, 0, 1])
        ⟨2, [], [], [], false, true, true, [], false⟩
        ⟨ascii "x", 1, 0, 3, [(0, 0)], 1, 7⟩).2.output =
      ascii "x" ++ (10 :: (natDec 2 ++ ascii " 0 obj" ++ [10])) ++
        hashToString (objSave (fun _ => [120, 156, 3, 0, 0, 0, 0, 1])
            ⟨2, [], [], [], false, true, true, [], false⟩
            ⟨ascii "x", 1, 0, 3, [(0, 0)], 1, 7⟩).1.dictionary 0 ++
        (10 :: (ascii "stream" ++ [10])) ++ [120, 156, 3, 0, 0, 0, 0, 1] ++
        (10 :: ascii "endstream") ++
        ([10] ++ ascii "endobj" ++ [10]) := by
  have h := objSave_compress_empty (fun _ => [120, 156, 3, 0, 0, 0, 0, 1])
    ⟨2, [], [], [], false, true, true, [], false⟩
    ⟨ascii "x", 1, 0, 3, [(0, 0)], 1, 7⟩
    rfl rfl rfl rfl rfl rfl (by decide) (by decide) (by decide)
  exact ⟨h.1, by decide, h.2⟩

/-- Claim C10 (amended): saving an Object with the ForceStream flag set,
an empty Data buffer and compression DISABLED (as holds for every
`AddPage` content stream: `NewObject` leaves `compress` false and
`AddPage` only sets ForceStream) emits the object header, a dictionary
carrying `Length` `0`, and `endobj` — with no `stream`/`endstream`
wrapper anywhere (the output equation shows the full emitted byte
sequence); and `AddPage` sets the ForceStream flag on the content object
it stores in the page.  With compression enabled the claim fails
(`c10_counterexample`): the compressed empty buffer is non-empty. -/
theorem c10_forcestream_dictionary_only (deflate : List Nat → List Nat) (o : Obj) (st : PDFW)
    (d0 : DocM) (content : Obj) (pnum : Nat)
    (h1 : o.saved = false) (h2 : o.raw = false) (h3 : o.compress = false)
    (h4 : o.forceStream = true) (h5 : o.data = []) (h6 : o.comment = [])
    (h7 : st.pos ≠ 0) (h8 : st.lastEOL ≤ st.pos) :
    dictLookup (objSave deflate o st).1.dictionary "Length" = some (.raw (ascii "0")) ∧
    (objSave deflate o st).2.output =
      st.output ++ (10 :: (natDec o.objectNumber ++ ascii " 0 obj" ++ [10])) ++
        hashToString (objSave deflate o st).1.dictionary 0 ++
        ([10] ++ ascii "endobj" ++ [10]) ∧
    (addPage d0 content pnum).1.contentStream.forceStream = true ∧
    (addPage d0 content pnum).2.pages = d0.pages ++ [(addPage d0 content pnum).1] := by
  rw [objSave]
  simp only [h1, Bool.false_eq_true, if_false]
  dsimp only
  simp only [h2, h3, h4, h5, h6, Bool.false_eq_true, if_false, ne_eq,
    not_true_eq_false, List.length_nil, lt_irrefl, false_or, if_true, ite_self,
    decide_False, Bool.false_or, Bool.or_true, reduceIte]
  rw [if_pos (dictSet_length_pos _ _ _)]
  rw [startObject_eq _ _ h7]
  dsimp only [emit]
  rw [endObject_eq _ (by simp only [List.length_cons]; omega)
    (by simp only [List.length_cons, List.length_append]; omega)]
  refine ⟨dictLookup_dictSet_self _ _ _, ?_, rfl, rfl⟩
  dsimp only
  simp [List.append_assoc, List.singleton_append, List.cons_append]

/-- C10 witness at a concrete object and writer state. -/
theorem c10_forcestream_dictionary_only_witness :
    dictLookup (objSave id { newObjWithNumber 2 with forceStream := true }
        ⟨ascii "x", 1, 0, 3, [(0, 0)], 1, 7⟩).1.dictionary "Length" =
      some (.raw (ascii "0")) ∧
    (objSave id { newObjWithNumber 2 with forceStream := true }
        ⟨ascii "x", 1, 0, 3, [(0, 0)], 1, 7⟩).2.output =
      ascii "x" ++ (10 :: (natDec 2 ++ ascii " 0 obj" ++ [10])) ++
        hashToString (objSave id { newObjWithNumber 2 with forceStream := true }
          ⟨ascii "x", 1, 0, 3, [(0, 0)], 1, 7⟩).1.dictionary 0 ++
        ([10] ++ ascii "endobj" ++ [10]) ∧
    (addPage ⟨⟨[], 0, 0, 1, [(0, 0)], 1, 7⟩, [], []⟩ (newObjWithNumber 5) 0).1.contentStream.forceStream = true ∧
    (addPage ⟨⟨[], 0, 0, 1, [(0, 0)], 1, 7⟩, [], []⟩ (newObjWithNumber 5) 0).2.pages =
      ([] : List PageM) ++ [(addPage ⟨⟨[], 0, 0, 1, [(0, 0)], 1, 7⟩, [], []⟩ (newObjWithNumber 5) 0).1] :=
  c10_forcestream_dictionary_only id { newObjWithNumber 2 with forceStream := true }
    ⟨ascii "x", 1, 0, 3, [(0, 0)], 1, 7⟩
    ⟨⟨[], 0, 0, 1, [(0, 0)], 1, 7⟩, [], []⟩ (newObjWithNumber 5) 0
    rfl rfl rfl rfl rfl rfl (by decide) (by decide)

/-! ## Claim C3 -/

instance : IsTotal String nameLE :=
  ⟨fun a b => by
    unfold nameLE
    by_cases ha : a = "Type"
    · simp [ha]
    · by_cases hb : b = "Type"
      · simp [ha, hb]
      · simp only [if_neg ha, if_neg hb]
        exact le_total a b⟩

instance : IsTrans String nameLE :=
  ⟨fun a b c hab hbc => by
    unfold nameLE at *
    by_cases ha : a = "Type"
    · simp [ha]
    · by_cases hb : b = "Type"
      · simp only [if_neg ha, if_pos hb] at hab
      · by_cases hc : c = "Type"
        · simp only [if_neg hb, if_pos hc] at hbc
        · simp only [if_neg ha, if_neg hb, if_neg hc] at *
          exact le_trans hab hbc⟩

instance : IsAntisymm String nameLE :=
  ⟨fun a b hab hba => by
    unfold nameLE at hab hba
    by_cases ha : a = "Type"
    · by_cases hb : b = "Type"
      · rw [ha, hb]
      · simp only [if_neg hb, if_pos ha] at hba
    · by_cases hb : b = "Type"
      · simp only [if_neg ha, if_pos hb] at hab
      · simp only [if_neg ha, if_neg hb] at hab hba
        exact le_antisymm hab hba⟩

theorem dictLookup_perm :
    ∀ {d₁ d₂ : DictM}, d₁.Perm d₂ → (d₁.map Prod.fst).Nodup →
      ∀ k, dictLookup d₁ k = dictLookup d₂ k := by
  intro d₁ d₂ h
  induction h with
  | nil => intro _ k; rfl
  | cons x h ih =>
      intro hnd k
      obtain ⟨xk, xv⟩ := x
      by_cases hk : xk = k
      · simp [dictLookup, hk]
      · simp only [dictLookup, hk, if_false, reduceIte]
        exact ih (by simpa using hnd.of_cons) k
  | swap x y l =>
      intro hnd k
      obtain ⟨xk, xv⟩ := x
      obtain ⟨yk, yv⟩ := y
      have hnd2 : (yk :: xk :: l.map Prod.fst).Nodup := by simpa using hnd
      have hne : yk ≠ xk := by
        intro hc
        exact (List.nodup_cons.mp hnd2).1 (by simp [hc])
      by_cases h1 : yk = k <;> by_cases h2 : xk = k <;>
        simp [dictLookup, h1, h2]
      exact absurd (h1.trans h2.symm) hne
  | trans h1 h2 ih1 ih2 =>
      intro hnd k
      rw [ih1 hnd k, ih2 (((h1.map Prod.fst).nodup_iff).mp hnd) k]

/-- C3: `hashToString` prints the key `Type` first when present and all
other keys in strictly ascending lexicographic order, and is invariant
under permutation of the entries (Go map insertion order): two Dicts
with the same key/value set serialize to byte-identical output. -/
theorem c3_dict_order_and_determinism (d₁ d₂ : DictM) (lvl : Nat)
    (hperm : d₁.Perm d₂) (hnd : (d₁.map Prod.fst).Nodup) :
    hashToString d₁ lvl = hashToString d₂ lvl ∧
    ("Type" ∈ d₁.map Prod.fst → (sortNames (d₁.map Prod.fst)).head? = some "Type") ∧
    List.Sorted (· < ·) ((sortNames (d₁.map Prod.fst)).filter (fun k => k ≠ "Type")) ∧
    (sortNames (d₁.map Prod.fst)).Perm (d₁.map Prod.fst) := by
  have hkperm : (sortNames (d₁.map Prod.fst)).Perm (d₁.map Prod.fst) :=
    List.perm_insertionSort nameLE _
  have hsorted := List.sorted_insertionSort nameLE (d₁.map Prod.fst)
  have hsorted2 := List.sorted_insertionSort nameLE (d₂.map Prod.fst)
  refine ⟨?_, ?_, ?_, hkperm⟩
  · have hkeys : sortNames (d₁.map Prod.fst) = sortNames (d₂.map Prod.fst) := by
      apply List.eq_of_perm_of_sorted _ hsorted hsorted2
      exact hkperm.trans ((hperm.map Prod.fst).trans (List.perm_insertionSort nameLE _).symm)
    unfold hashToString
    rw [hkeys]
    have hlk : ∀ key : String, dictLookup d₁ key = dictLookup d₂ key :=
      fun key => dictLookup_perm hperm hnd key
    simp only [hlk]
  · intro hmem
    have hmem2 : "Type" ∈ sortNames (d₁.map Prod.fst) := hkperm.mem_iff.mpr hmem
    have hsorted3 : List.Sorted nameLE (sortNames (List.map Prod.fst d₁)) := hsorted
    cases hsn : sortNames (List.map Prod.fst d₁) with
    | nil =>
        rw [hsn] at hmem2
        simp at hmem2
    | cons a rest =>
        rw [hsn] at hmem2 hsorted3
        rcases List.mem_cons.mp hmem2 with hA | hB
        · rw [hA]
          rfl
        · by_cases ha : a = "Type"
          · rw [ha]
            rfl
          · exfalso
            have hle := (List.sorted_cons.mp hsorted3).1 "Type" hB
            unfold nameLE at hle
            simp [ha] at hle
  · have hnds : (sortNames (d₁.map Prod.fst)).Nodup := hkperm.nodup_iff.mpr hnd
    have hfil := List.Pairwise.filter (fun k => decide (k ≠ "Type")) hsorted
    have hfilnd := List.Nodup.filter (fun k => decide (k ≠ "Type")) hnds
    have hand := hfil.and hfilnd
    apply List.Pairwise.imp_of_mem _ hand
    intro a b hma hmb hab
    have hbne : b ≠ "Type" := by
      have := List.mem_filter.mp hmb
      simpa using this.2
    have hane : a ≠ "Type" := by
      have := List.mem_filter.mp hma
      simpa using this.2
    have h1 : nameLE a b := hab.1
    unfold nameLE at h1
    rw [if_neg hane, if_neg hbne] at h1
    exact lt_of_le_of_ne h1 hab.2

/-- C3 witness: two insertion orders of the same entries. -/
theorem c3_dict_order_and_determinism_witness :
    hashToString [("B", PDFVal.raw (ascii "1")), ("Type", PDFVal.raw (ascii "2"))] 0 =
      hashToString [("Type", PDFVal.raw (ascii "2")), ("B", PDFVal.raw (ascii "1"))] 0 ∧
    ("Type" ∈ ([("B", PDFVal.raw (ascii "1")), ("Type", PDFVal.raw (ascii "2"))] : DictM).map Prod.fst →
      (sortNames (([("B", PDFVal.raw (ascii "1")), ("Type", PDFVal.raw (ascii "2"))] : DictM).map Prod.fst)).head? = some "Type") ∧
    List.Sorted (· < ·)
      ((sortNames (([("B", PDFVal.raw (ascii "1")), ("Type", PDFVal.raw (ascii "2"))] : DictM).map Prod.fst)).filter
        (fun k => k ≠ "Type")) ∧
    (sortNames (([("B", PDFVal.raw (ascii "1")), ("Type", PDFVal.raw (ascii "2"))] : DictM).map Prod.fst)).Perm
      (([("B", PDFVal.raw (ascii "1")), ("Type", PDFVal.raw (ascii "2"))] : DictM).map Prod.fst) :=
  c3_dict_order_and_determinism
    [("B", PDFVal.raw (ascii "1")), ("Type", PDFVal.raw (ascii "2"))]
    [("Type", PDFVal.raw (ascii "2")), ("B", PDFVal.raw (ascii "1"))] 0
    (List.Perm.swap _ _ _) (by decide)

/-! ## Claim C4 -/

theorem pdfLiteralDecode_cons (c : Nat) (rest : List Nat) (hc : c ≠ 92) :
    pdfLiteralDecode (c :: rest) = c :: pdfLiteralDecode rest := by
  rw [pdfLiteralDecode.eq_def]
  split
  · simp_all
  · simp_all
  · simp_all

theorem pdfLiteralDecode_replace (s : List Nat) :
    pdfLiteralDecode (pdfStringReplace s) = s := by
  induction s with
  | nil => simp [pdfStringReplace, pdfLiteralDecode]
  | cons c rest ih =>
      have hstep : pdfStringReplace (c :: rest) =
          pdfStringReplaceChar c ++ pdfStringReplace rest := by
        simp [pdfStringReplace]
      rw [hstep]
      unfold pdfStringReplaceChar
      split_ifs with h1 h2 h3 h4 h5 h6 h7
      · subst h1; simp [pdfLiteralDecode, pdfUnescapeChar, ih]
      · subst h2; simp [pdfLiteralDecode, pdfUnescapeChar, ih]
      · subst h3; simp [pdfLiteralDecode, pdfUnescapeChar, ih]
      · subst h4; simp [pdfLiteralDecode, pdfUnescapeChar, ih]
      · subst h5; simp [pdfLiteralDecode, pdfUnescapeChar, ih]
      · subst h6; simp [pdfLiteralDecode, pdfUnescapeChar, ih]
      · subst h7; simp [pdfLiteralDecode, pdfUnescapeChar, ih]
      · rw [List.singleton_append, pdfLiteralDecode_cons c _ h3, ih]

theorem hexVal_hexChar (d : Nat) (hd : d < 16) : hexVal (hexChar d) = some d := by
  unfold hexVal hexChar
  split_ifs <;> (first | (congr 1; omega) | omega)

theorem utf16EncodeChar_bound (c : Nat) (hc : isScalar c) :
    ∀ u ∈ utf16EncodeChar c, u < 65536 := by
  intro u hu
  unfold utf16EncodeChar at hu
  rcases hc with hc | hc
  · rw [if_pos (by omega)] at hu
    simp at hu
    omega
  · by_cases hsm : c < 65536
    · rw [if_pos hsm] at hu
      simp at hu
      omega
    · rw [if_neg hsm] at hu
      simp at hu
      rcases hu with hu | hu <;> omega

theorem hexQuads_hex4 (l : List Nat) (hl : ∀ u ∈ l, u < 65536) :
    hexQuads (l.flatMap hex4) = some l := by
  induction l with
  | nil => simp [hexQuads]
  | cons u rest ih =>
      have hu : u < 65536 := hl u (by simp)
      have hrest := ih (fun x hx => hl x (by simp [hx]))
      simp only [List.flatMap_cons]
      show hexQuads (hexChar (u / 4096 % 16) :: hexChar (u / 256 % 16) ::
        hexChar (u / 16 % 16) :: hexChar (u % 16) :: rest.flatMap hex4) = _
      simp only [hexQuads]
      rw [hexVal_hexChar _ (by omega), hexVal_hexChar _ (by omega),
        hexVal_hexChar _ (by omega), hexVal_hexChar _ (by omega), hrest]
      dsimp only
      congr 2
      omega

theorem utf16Decode_encode (s : List Nat) (hs : ∀ c ∈ s, isScalar c) :
    utf16Decode (utf16Encode s) = s := by
  induction s with
  | nil => simp [utf16Encode, utf16Decode]
  | cons c rest ih =>
      have hc := hs c (by simp)
      have hrest := ih (fun x hx => hs x (by simp [hx]))
      simp only [utf16Encode, List.flatMap_cons] at hrest ⊢
      by_cases hsm : c < 65536
      · have hns : ¬ (55296 ≤ c ∧ c < 56320) := by
          rcases hc with hc | hc <;> omega
        rw [show utf16EncodeChar c = [c] by unfold utf16EncodeChar; rw [if_pos hsm]]
        cases he : rest.flatMap utf16EncodeChar with
        | nil =>
            simp only [List.singleton_append]
            rw [he] at hrest
            simp only [utf16Decode] at hrest
            simp [utf16Decode, ← hrest]
        | cons u2 tl =>
            simp only [List.singleton_append]
            rw [utf16Decode.eq_def]
            dsimp only
            rw [if_neg hns]
            rw [he] at hrest
            rw [hrest]
      · have hc2 : c < 1114112 := by rcases hc with hc | hc <;> omega
        rw [show utf16EncodeChar c =
            [55296 + (c - 65536) / 1024, 56320 + (c - 65536) % 1024] by
          unfold utf16EncodeChar; rw [if_neg hsm]]
        simp only [List.cons_append, List.nil_append]
        rw [utf16Decode.eq_def]
        dsimp only
        rw [if_pos (by constructor <;> omega)]
        rw [hrest]
        have hval : 65536 + (55296 + (c - 65536) / 1024 - 55296) * 1024 +
            (56320 + (c - 65536) % 1024 - 56320) = c := by omega
        rw [hval]

/-- C4 counterexample: the form feed character (code 12) is a control
character, yet `stringToPDF` leaves it entirely unescaped — the output
contains the raw byte 12 and no backslash at all, refuting "the control
characters are escaped". -/
theorem c4_counterexample :
    stringToPDF [12] = [40, 12, 41] ∧ ¬ (92 ∈ stringToPDF [12]) ∧ (12 : Nat) < 32 := by
  decide

/-- C4 (amended): for all-ASCII inputs `stringToPDF` yields a
parenthesized literal escaping exactly `(`, `)`, `\`, LF, CR, TAB and BS
(not the other control characters), and PDF literal-string decoding of
the body recovers the input; for inputs with a code point above 127 it
yields `<feff…>` holding the UTF-16BE code units in hex, and decoding the
hex digits after the byte-order mark recovers exactly the original code
points. -/
theorem c4_string_roundtrip (s : List Nat) (hsc : ∀ c ∈ s, isScalar c) :
    (s.all (· ≤ 127) = true →
      stringToPDF s = 40 :: (pdfStringReplace s ++ [41]) ∧
      pdfLiteralDecode (pdfStringReplace s) = s) ∧
    (s.all (· ≤ 127) = false → pdfHexDecode (stringToPDF s) = some s) ∧
    (∀ c, c < 128 → (pdfStringReplaceChar c ≠ [c] ↔ c ∈ ([40, 41, 92, 10, 13, 9, 8] : List Nat))) := by
  refine ⟨?_, ?_, by decide⟩
  · intro hascii
    exact ⟨by simp [stringToPDF, hascii], pdfLiteralDecode_replace s⟩
  · intro hnascii
    have hform : stringToPDF s = ascii "<feff" ++ ((utf16Encode s).flatMap hex4 ++ [62]) := by
      simp [stringToPDF, hnascii]
    rw [hform]
    show pdfHexDecode (60 :: 102 :: 101 :: 102 :: 102 ::
      ((utf16Encode s).flatMap hex4 ++ [62])) = some s
    unfold pdfHexDecode
    dsimp only
    rw [List.getLast?_concat]
    dsimp only
    rw [List.dropLast_concat]
    have hbound : ∀ u ∈ utf16Encode s, u < 65536 := by
      intro u hu
      simp only [utf16Encode, List.mem_flatMap] at hu
      obtain ⟨c, hcm, hcu⟩ := hu
      exact utf16EncodeChar_bound c (hsc c hcm) u hcu
    rw [hexQuads_hex4 _ hbound]
    dsimp only
    rw [utf16Decode_encode s hsc]

/-- C4 witness at a concrete non-ASCII string (U+03BB, U+1D11E). -/
theorem c4_string_roundtrip_witness :
    (([955, 119070] : List Nat).all (· ≤ 127) = false →
      pdfHexDecode (stringToPDF [955, 119070]) = some [955, 119070]) ∧
    (([955, 119070] : List Nat).all (· ≤ 127) = true →
      stringToPDF [955, 119070] = 40 :: (pdfStringReplace [955, 119070] ++ [41]) ∧
      pdfLiteralDecode (pdfStringReplace [955, 119070]) = [955, 119070]) :=
  ⟨(c4_string_roundtrip [955, 119070] (by decide)).2.1,
   (c4_string_roundtrip [955, 119070] (by decide)).1⟩

/-! ## Claim C7 -/

theorem boxGet_boxSet_self (b : BoxM) (k : String) (v : ℚ) :
    boxGet (boxSet b k v) k = v := by
  induction b with
  | nil => simp [boxSet, boxGet]
  | cons p rest ih =>
      by_cases hk : p.1 = k
      · simp [boxSet, hk, boxGet]
      · simp [boxSet, hk, boxGet, ih]

theorem boxGet_boxSet_ne (b : BoxM) (k k2 : String) (v : ℚ) (h : k ≠ k2) :
    boxGet (boxSet b k v) k2 = boxGet b k2 := by
  induction b with
  | nil => simp [boxSet, boxGet, h]
  | cons p rest ih =>
      by_cases hk : p.1 = k
      · subst hk
        simp [boxSet, boxGet, h]
      · by_cases hk2 : p.1 = k2
        · subst hk2
          simp [boxSet, hk, boxGet, Ne.symm h, fun v0 => ih]
        · simp [boxSet, hk, boxGet, hk2, ih]

theorem intersectBox_props (bx mb : BoxM) :
    boxGet mb "llx" ≤ boxGet (intersectBox bx mb) "llx" ∧
    boxGet mb "lly" ≤ boxGet (intersectBox bx mb) "lly" ∧
    boxGet (intersectBox bx mb) "urx" ≤ boxGet mb "urx" ∧
    boxGet (intersectBox bx mb) "ury" ≤ boxGet mb "ury" ∧
    boxGet (intersectBox bx mb) "w" =
      boxGet (intersectBox bx mb) "urx" - boxGet (intersectBox bx mb) "llx" ∧
    boxGet (intersectBox bx mb) "h" =
      boxGet (intersectBox bx mb) "ury" - boxGet (intersectBox bx mb) "lly" ∧
    boxGet (intersectBox bx mb) "x" = boxGet (intersectBox bx mb) "llx" ∧
    boxGet (intersectBox bx mb) "y" = boxGet (intersectBox bx mb) "lly" := by
  unfold intersectBox
  dsimp only
  split_ifs with h1 h2 h3 h4 <;>
    simp [boxGet_boxSet_self, boxGet_boxSet_ne]
  all_goals repeat' apply And.intro
  all_goals linarith

/-- C7 counterexample: a direct `/MediaBox` request returns the RAW
stored map (src/imagefile.go:575, `return bx, nil`): no intersection is
performed and no `w`/`h` fields are computed, so for a stored MediaBox
holding only the four corner entries the returned map reads `w` as the
Go zero value 0 although `urx - llx = 200` — contradicting the claim
that every returned box carries `w = urx - llx`. -/
theorem c7_counterexample :
    getPDFBoxDimensions
        [(1, [("/MediaBox", [("llx", 0), ("lly", 0), ("urx", 200), ("ury", 100)])])]
        1 1 "/MediaBox" =
      .ok [("llx", 0), ("lly", 0), ("urx", 200), ("ury", 100)] ∧
    boxGet [("llx", (0 : ℚ)), ("lly", 0), ("urx", 200), ("ury", 100)] "w" = 0 ∧
    boxGet [("llx", (0 : ℚ)), ("lly", 0), ("urx", 200), ("ury", 100)] "urx" -
      boxGet [("llx", (0 : ℚ)), ("lly", 0), ("urx", 200), ("ury", 100)] "llx" = 200 ∧
    (0 : ℚ) ≠ 200 := by
  refine ⟨?_, ?_, ?_, by norm_num⟩
  · rw [getPDFBoxDimensions]
    simp [pageSizesGet, pageBoxGet]
  · simp [boxGet]
  · simp [boxGet]

set_option maxRecDepth 4000 in
/-- Claim C7 (corrected): `GetPDFBoxDimensions` (src/imagefile.go:558)
clamps ONLY a present non-MediaBox box against the stored `/MediaBox`
(each edge inward, never outward, with `w = urx - llx` and
`h = ury - lly` recomputed, as the claim describes); but a direct
`/MediaBox` request and the missing-`/CropBox` fallback return the raw
stored map unmodified, and a missing `/ArtBox`, `/BleedBox` or
`/TrimBox` resolves exactly as a `/CropBox` request; on the claim's
concrete page (CropBox [-10,5,210,120], MediaBox [0,0,200,100]) the
result is llx 0, lly 5, urx 200, ury 100, w 200, h 95. -/
theorem c7_box_dimensions (pageSizes : List (Nat × PageBoxes)) (numberOfPages p : Nat)
    (boxname : String) (hp : ¬ p > numberOfPages) :
    ((pageBoxGet (pageSizesGet pageSizes p) boxname).length ≠ 0 → boxname ≠ "/MediaBox" →
      ∃ out, getPDFBoxDimensions pageSizes numberOfPages p boxname = .ok out ∧
        out = intersectBox (pageBoxGet (pageSizesGet pageSizes p) boxname)
                (pageBoxGet (pageSizesGet pageSizes p) "/MediaBox") ∧
        (boxGet (pageBoxGet (pageSizesGet pageSizes p) "/MediaBox") "llx" ≤ boxGet out "llx" ∧
         boxGet (pageBoxGet (pageSizesGet pageSizes p) "/MediaBox") "lly" ≤ boxGet out "lly" ∧
         boxGet out "urx" ≤ boxGet (pageBoxGet (pageSizesGet pageSizes p) "/MediaBox") "urx" ∧
         boxGet out "ury" ≤ boxGet (pageBoxGet (pageSizesGet pageSizes p) "/MediaBox") "ury" ∧
         boxGet out "w" = boxGet out "urx" - boxGet out "llx" ∧
         boxGet out "h" = boxGet out "ury" - boxGet out "lly")) ∧
    ((pageBoxGet (pageSizesGet pageSizes p) "/MediaBox").length ≠ 0 →
      getPDFBoxDimensions pageSizes numberOfPages p "/MediaBox" =
        .ok (pageBoxGet (pageSizesGet pageSizes p) "/MediaBox")) ∧
    ((pageBoxGet (pageSizesGet pageSizes p) "/CropBox").length = 0 →
      getPDFBoxDimensions pageSizes numberOfPages p "/CropBox" =
        .ok (pageBoxGet (pageSizesGet pageSizes p) "/MediaBox")) ∧
    ((boxname = "/ArtBox" ∨ boxname = "/BleedBox" ∨ boxname = "/TrimBox") →
      (pageBoxGet (pageSizesGet pageSizes p) boxname).length = 0 →
      getPDFBoxDimensions pageSizes numberOfPages p boxname =
        getPDFBoxDimensions pageSizes numberOfPages p "/CropBox") ∧
    (boxFields (getPDFBoxDimensions
        [(1, [("/MediaBox", [("llx", 0), ("lly", 0), ("urx", 200), ("ury", 100)]),
              ("/CropBox", [("llx", -10), ("lly", 5), ("urx", 210), ("ury", 120)])])]
        1 1 "/CropBox") = some [0, 5, 200, 100, 200, 95]) := by
  refine ⟨?_, ?_, ?_, ?_, ?_⟩
  · intro hbx hnm
    rw [getPDFBoxDimensions]
    rw [if_neg hp]
    dsimp only
    rw [if_neg hbx, if_neg hnm]
    obtain ⟨a, b, c, d, e, f, _, _⟩ :=
      intersectBox_props (pageBoxGet (pageSizesGet pageSizes p) boxname)
        (pageBoxGet (pageSizesGet pageSizes p) "/MediaBox")
    exact ⟨_, rfl, rfl, a, b, c, d, e, f⟩
  · intro hmb
    rw [getPDFBoxDimensions]
    rw [if_neg hp]
    dsimp only
    rw [if_neg hmb, if_pos rfl]
  · intro hcb
    rw [getPDFBoxDimensions]
    rw [if_neg hp]
    dsimp only
    rw [if_pos hcb, if_pos rfl]
  · intro hart hlen
    rw [getPDFBoxDimensions]
    rw [if_neg hp]
    dsimp only
    rw [if_pos hlen]
    rw [if_neg (by rcases hart with h | h | h <;> subst h <;> decide)]
    rw [dif_pos hart]
  · rw [getPDFBoxDimensions]
    simp [pageSizesGet, pageBoxGet, intersectBox, boxGet, boxSet, boxFields]
    norm_num

/-- C7 witness on the claim's concrete page: the present `/CropBox` is
clamped against the `/MediaBox` with recomputed `w`/`h`, yielding the
claim's concrete numbers. -/
theorem c7_box_dimensions_witness :
    (¬ (1 : Nat) > 1) ∧
    ((pageBoxGet (pageSizesGet
        [(1, [("/MediaBox", [("llx", 0), ("lly", 0), ("urx", 200), ("ury", 100)]),
              ("/CropBox", [("llx", -10), ("lly", 5), ("urx", 210), ("ury", 120)])])] 1)
        "/CropBox").length ≠ 0) ∧
    (∃ out, getPDFBoxDimensions
        [(1, [("/MediaBox", [("llx", 0), ("lly", 0), ("urx", 200), ("ury", 100)]),
              ("/CropBox", [("llx", -10), ("lly", 5), ("urx", 210), ("ury", 120)])])]
        1 1 "/CropBox" = .ok out ∧
      out = intersectBox
        (pageBoxGet (pageSizesGet
          [(1, [("/MediaBox", [("llx", 0), ("lly", 0), ("urx", 200), ("ury", 100)]),
                ("/CropBox", [("llx", -10), ("lly", 5), ("urx", 210), ("ury", 120)])])] 1)
          "/CropBox")
        (pageBoxGet (pageSizesGet
          [(1, [("/MediaBox", [("llx", 0), ("lly", 0), ("urx", 200), ("ury", 100)]),
                ("/CropBox", [("llx", -10), ("lly", 5), ("urx", 210), ("ury", 120)])])] 1)
          "/MediaBox") ∧
      (boxGet (pageBoxGet (pageSizesGet
          [(1, [("/MediaBox", [("llx", 0), ("lly", 0), ("urx", 200), ("ury", 100)]),
                ("/CropBox", [("llx", -10), ("lly", 5), ("urx", 210), ("ury", 120)])])] 1)
          "/MediaBox") "llx" ≤ boxGet out "llx" ∧
       boxGet (pageBoxGet (pageSizesGet
          [(1, [("/MediaBox", [("llx", 0), ("lly", 0), ("urx", 200), ("ury", 100)]),
                ("/CropBox", [("llx", -10), ("lly", 5), ("urx", 210), ("ury", 120)])])] 1)
          "/MediaBox") "lly" ≤ boxGet out "lly" ∧
       boxGet out "urx" ≤ boxGet (pageBoxGet (pageSizesGet
          [(1, [("/MediaBox", [("llx", 0), ("lly", 0), ("urx", 200), ("ury", 100)]),
                ("/CropBox", [("llx", -10), ("lly", 5), ("urx", 210), ("ury", 120)])])] 1)
          "/MediaBox") "urx" ∧
       boxGet out "ury" ≤ boxGet (pageBoxGet (pageSizesGet
          [(1, [("/MediaBox", [("llx", 0), ("lly", 0), ("urx", 200), ("ury", 100)]),
                ("/CropBox", [("llx", -10), ("lly", 5), ("urx", 210), ("ury", 120)])])] 1)
          "/MediaBox") "ury" ∧
       boxGet out "w" = boxGet out "urx" - boxGet out "llx" ∧
       boxGet out "h" = boxGet out "ury" - boxGet out "lly")) ∧
    (boxFields (getPDFBoxDimensions
        [(1, [("/MediaBox", [("llx", 0), ("lly", 0), ("urx", 200), ("ury", 100)]),
              ("/CropBox", [("llx", -10), ("lly", 5), ("urx", 210), ("ury", 120)])])]
        1 1 "/CropBox") = some [0, 5, 200, 100, 200, 95]) :=
  ⟨by decide, by decide,
   (c7_box_dimensions
     [(1, [("/MediaBox", [("llx", 0), ("lly", 0), ("urx", 200), ("ury", 100)]),
           ("/CropBox", [("llx", -10), ("lly", 5), ("urx", 210), ("ury", 120)])])]
     1 1 "/CropBox" (by decide)).1 (by decide) (by decide),
   (c7_box_dimensions
     [(1, [("/MediaBox", [("llx", 0), ("lly", 0), ("urx", 200), ("ury", 100)]),
           ("/CropBox", [("llx", -10), ("lly", 5), ("urx", 210), ("ury", 120)])])]
     1 1 "/CropBox" (by decide)).2.2.2.2⟩

/-! ## Claim C6 -/

theorem varLookup_perm {V : Type} :
    ∀ {v₁ v₂ : List (String × V)}, v₁.Perm v₂ → (v₁.map Prod.fst).Nodup →
      ∀ k, varLookup v₁ k = varLookup v₂ k := by
  intro v₁ v₂ h
  induction h with
  | nil => intro _ k; rfl
  | cons x h ih =>
      intro hnd k
      obtain ⟨xk, xv⟩ := x
      by_cases hk : xk = k
      · simp [varLookup, hk]
      · simp only [varLookup, hk, if_false, reduceIte]
        exact ih (by simpa using hnd.of_cons) k
  | swap x y l =>
      intro hnd k
      obtain ⟨xk, xv⟩ := x
      obtain ⟨yk, yv⟩ := y
      have hnd2 : (yk :: xk :: l.map Prod.fst).Nodup := by simpa using hnd
      have hne : yk ≠ xk := by
        intro hc
        exact (List.nodup_cons.mp hnd2).1 (by simp [hc])
      by_cases h1 : yk = k <;> by_cases h2 : xk = k <;>
        simp [varLookup, h1, h2]
      exact absurd (h1.trans h2.symm) hne
  | trans h1 h2 ih1 ih2 =>
      intro hnd k
      rw [ih1 hnd k, ih2 (((h1.map Prod.fst).nodup_iff).mp hnd) k]

set_option maxRecDepth 100000 in
/-- C6 counterexample: the claim's reference letter computation
`A + ((b0 + b1) mod 26)` disagrees with the source already on the empty
glyph set with no variations — the source adds the two digest bytes with
uint8 wraparound (mod 256) before reducing mod 26. -/
theorem c6_counterexample :
    subsetTag (fun _ : Unit => []) [] [] ≠ specSubsetTag (fun _ : Unit => []) [] [] := by
  decide

/-- C6 (amended): `subsetTag` equals the reference definition with the
letter map corrected to `A + (((b0 + b1) mod 256) mod 26)` (byte
wraparound before the mod-26 reduction), is invariant under permutation
of the glyph list and of the variation-settings map, and always yields 6
letters in `A`–`Z`. -/
theorem c6_subset_tag {V : Type} (fmtVal : V → List Nat) (g₁ g₂ : List Nat)
    (v₁ v₂ : List (String × V)) (hg : g₁.Perm g₂) (hv : v₁.Perm v₂)
    (hnd : (v₁.map Prod.fst).Nodup) :
    subsetTag fmtVal g₁ v₁ = subsetTag fmtVal g₂ v₂ ∧
    subsetTag fmtVal g₁ v₁ = specSubsetTagAmended fmtVal g₁ v₁ ∧
    (subsetTag fmtVal g₁ v₁).length = 6 ∧
    (∀ ch ∈ subsetTag fmtVal g₁ v₁, 65 ≤ ch ∧ ch ≤ 90) := by
  have hland : ∀ x : Nat, Nat.land x 255 = x % 256 := fun x => by
    simpa using Nat.and_pow_two_sub_one_eq_mod x 8
  refine ⟨?_, ?_, ?_, ?_⟩
  · have hsort : List.insertionSort (fun a b => a ≤ b) g₁ =
        List.insertionSort (fun a b => a ≤ b) g₂ := by
      apply List.eq_of_perm_of_sorted
        ((List.perm_insertionSort _ _).trans (hg.trans (List.perm_insertionSort _ _).symm))
        (List.sorted_insertionSort _ _) (List.sorted_insertionSort _ _)
    have hkeys : List.insertionSort (fun a b => a ≤ b) (v₁.map Prod.fst) =
        List.insertionSort (fun a b => a ≤ b) (v₂.map Prod.fst) := by
      apply List.eq_of_perm_of_sorted
        ((List.perm_insertionSort _ _).trans ((hv.map Prod.fst).trans
          (List.perm_insertionSort _ _).symm))
        (List.sorted_insertionSort _ _) (List.sorted_insertionSort _ _)
    have hlen : v₁.length = v₂.length := hv.length_eq
    have hlook : ∀ k, varLookup v₁ k = varLookup v₂ k := varLookup_perm hv hnd
    unfold subsetTag
    simp only [hsort, hkeys, hlen, hlook]
  · unfold subsetTag specSubsetTagAmended
    simp only [hland]
  · unfold subsetTag
    simp
  · intro ch hch
    unfold subsetTag at hch
    simp only [List.mem_map, List.mem_range] at hch
    obtain ⟨i, _, hi⟩ := hch
    omega

set_option maxRecDepth 100000 in
/-- C6 witness: two orderings of the same glyph set and variation map. -/
theorem c6_subset_tag_witness :
    subsetTag (fun u : Nat => natDec u) [3, 1, 2] [("wght", 700), ("wdth", 100)] =
      subsetTag (fun u : Nat => natDec u) [2, 3, 1] [("wdth", 100), ("wght", 700)] ∧
    subsetTag (fun u : Nat => natDec u) [3, 1, 2] [("wght", 700), ("wdth", 100)] =
      specSubsetTagAmended (fun u : Nat => natDec u) [3, 1, 2] [("wght", 700), ("wdth", 100)] ∧
    (subsetTag (fun u : Nat => natDec u) [3, 1, 2] [("wght", 700), ("wdth", 100)]).length = 6 ∧
    (∀ ch ∈ subsetTag (fun u : Nat => natDec u) [3, 1, 2] [("wght", 700), ("wdth", 100)],
      65 ≤ ch ∧ ch ≤ 90) :=
  c6_subset_tag (fun u : Nat => natDec u) [3, 1, 2] [2, 3, 1]
    [("wght", 700), ("wdth", 100)] [("wdth", 100), ("wght", 700)]
    (by decide) (List.Perm.swap _ _ _) (by decide)

/-! ## Claim C9 -/

theorem dictLookup_append (d₁ d₂ : DictM) (k : String) (h : dictLookup d₁ k = none) :
    dictLookup (d₁ ++ d₂) k = dictLookup d₂ k := by
  induction d₁ with
  | nil => simp
  | cons p rest ih =>
      obtain ⟨k0, v0⟩ := p
      by_cases hk : k0 = k
      · simp [dictLookup, hk] at h
      · simp only [dictLookup, hk, List.cons_append, if_false, reduceIte] at h ⊢
        exact ih h

theorem outlineLoop_count_dicts (n : Nat) :
    ∀ (outlines : List OutlineT), sizeOf outlines ≤ n →
    ∀ (isFirst : Bool) (parentNum selfNum counter : Nat),
    (outlineLoop isFirst outlines parentNum selfNum counter).2.1 = totalCount outlines ∧
    ((outlineLoop isFirst outlines parentNum selfNum counter).2.2.2).map
        (fun pd => dictLookup pd.2 "Count") =
      (outlineNodes outlines).map (fun o => (amendedCountEntry o).map PDFVal.raw) := by
  induction n with
  | zero =>
      intro outlines h
      cases outlines <;> simp at h
  | succ n ih =>
      intro outlines h isFirst parentNum selfNum counter
      cases outlines with
      | nil =>
          rw [outlineLoop, totalCount, outlineNodes]
          simp
      | cons o rest =>
          have hlt : sizeOf o.children < sizeOf o := by
            cases o; simp [OutlineT.children]; omega
          have hco : sizeOf o.children ≤ n := by
            simp only [List.cons.sizeOf_spec] at h; omega
          have hrs : sizeOf rest ≤ n := by
            simp only [List.cons.sizeOf_spec] at h; omega
          rw [outlineLoop]
          dsimp only
          rw [totalCount, outlineNodes]
          by_cases hch : o.children.length > 0
          · rw [if_pos hch]
            dsimp only
            obtain ⟨ihc1, ihc2⟩ :=
              ih o.children hco true selfNum counter (counter + o.children.length)
            obtain ⟨ihr1, ihr2⟩ :=
              ih rest hrs false parentNum (selfNum + 1)
                (outlineLoop true o.children selfNum counter
                  (counter + o.children.length)).2.2.1
            have hne : o.children.length ≠ 0 := by omega
            constructor
            · rw [ihc1, ihr1]
            · simp only [List.map_append, List.map_cons, List.map_nil]
              refine congrArg₂ (fun a b => a ++ b)
                (congrArg₂ (fun a b => a ++ b) ihc2 ?_) ihr2
              simp only [List.cons.injEq, and_true]
              have hd2 :
                  dictLookup
                    (if isFirst = false then
                      (if rest.length > 0 then
                          [("Parent", PDFVal.raw (refStr parentNum)),
                           ("Title", PDFVal.raw (stringToPDF o.title)),
                           ("Dest", PDFVal.raw o.dest)] ++
                            [("Next", PDFVal.raw (refStr (selfNum + 1)))]
                        else
                          [("Parent", PDFVal.raw (refStr parentNum)),
                           ("Title", PDFVal.raw (stringToPDF o.title)),
                           ("Dest", PDFVal.raw o.dest)]) ++
                        [("Prev", PDFVal.raw (refStr (selfNum - 1)))]
                    else
                      if rest.length > 0 then
                        [("Parent", PDFVal.raw (refStr parentNum)),
                         ("Title", PDFVal.raw (stringToPDF o.title)),
                         ("Dest", PDFVal.raw o.dest)] ++
                          [("Next", PDFVal.raw (refStr (selfNum + 1)))]
                      else
                        [("Parent", PDFVal.raw (refStr parentNum)),
                         ("Title", PDFVal.raw (stringToPDF o.title)),
                         ("Dest", PDFVal.raw o.dest)]) "Count" = none := by
                split <;> split <;> simp [dictLookup]
              rw [dictLookup_append _ _ _ hd2]
              have hy : Option.map PDFVal.raw (amendedCountEntry o) =
                  some (PDFVal.raw (if o.isOpen then natDec (totalCount o.children)
                                    else ascii "-1")) := by
                simp [amendedCountEntry, hne]
              rw [hy, ihc1]
              simp [dictLookup]
          · rw [if_neg hch]
            dsimp only
            have hnil : o.children = [] := List.length_eq_zero.mp (by omega)
            obtain ⟨ihr1, ihr2⟩ :=
              ih rest hrs false parentNum (selfNum + 1) counter
            constructor
            · rw [ihr1, hnil, totalCount]
            · have hon : (outlineNodes o.children).map
                  (fun o => (amendedCountEntry o).map PDFVal.raw) = [] := by
                rw [hnil, outlineNodes]; rfl
              simp only [List.map_append, List.map_cons, List.map_nil]
              rw [hon]
              simp only [List.nil_append]
              refine congrArg₂ (fun a b => a ++ b) ?_ ihr2
              simp only [List.cons.injEq, and_true]
              have hy : Option.map PDFVal.raw (amendedCountEntry o) = none := by
                simp [amendedCountEntry, hnil]
              rw [hy]
              split <;> split <;> simp [dictLookup]

/-- Claim C9 (corrected): in `writeOutline` (src/writer.go:502) the count
returned for a forest is the TOTAL number of nodes of the forest (hidden
descendants of collapsed nodes included), and the `/Count` entry written
for each node with children is that total descendant count when the node
is open and the literal string `-1` when it is collapsed — not the
visible descendant count negated, as the spec claims. -/
theorem c9_outline_count (outlines : List OutlineT) (parentNum counter : Nat) :
    (writeOutlineM outlines parentNum counter).2.2.1 = totalCount outlines ∧
    ((writeOutlineM outlines parentNum counter).2.2.2.2).map
        (fun pd => dictLookup pd.2 "Count") =
      (outlineNodes outlines).map (fun o => (amendedCountEntry o).map PDFVal.raw) := by
  have h := outlineLoop_count_dicts (sizeOf outlines) outlines le_rfl true
    parentNum counter (counter + outlines.length)
  rw [writeOutlineM]
  exact h

/-- Claim C9, counterexample: a collapsed root with two open childless
children.  The source writes `/Count -1` for the root, while the claim
predicts the negated visible descendant count `-2`. -/
theorem c9_counterexample :
    (((writeOutlineM
        [OutlineT.mk
          [OutlineT.mk [] (ascii "a") (ascii "b") true,
           OutlineT.mk [] (ascii "a") (ascii "b") true]
          (ascii "t") (ascii "d") false] 1 10).2.2.2.2).map
      (fun pd => dictLookup pd.2 "Count"))[2]? =
      some (some (PDFVal.raw (ascii "-1"))) ∧
    specCountEntry
        (OutlineT.mk
          [OutlineT.mk [] (ascii "a") (ascii "b") true,
           OutlineT.mk [] (ascii "a") (ascii "b") true]
          (ascii "t") (ascii "d") false) =
      some (ascii "-2") ∧
    ascii "-1" ≠ ascii "-2" := by
  refine ⟨?_, ?_, by decide⟩
  · simp [writeOutlineM, outlineLoop, dictLookup, OutlineT.children, OutlineT.title,
      OutlineT.dest, OutlineT.isOpen, ascii]
  · simp [specCountEntry, visibleCount, OutlineT.children, OutlineT.isOpen, intDec,
      natDec, natDecAux, ascii]

/-! ## Claim C5 -/

/-- Claim C5: `Finish` on a document with zero pages
(src/writer.go:293,550): the call fails with the error
`no pages in document`, and nothing is written to the output sink —
in particular no xref section and no trailer; the output bytes after
the failed call are exactly the bytes already present before it. -/
theorem c5_zero_pages (deflate : List Nat → List Nat)
    (imgFinish : String → PDFW → PDFW)
    (rest : DocM → Nat → Except (List Nat) Nat × DocM)
    (d : DocM) (h : d.pages = []) :
    (pdfFinish deflate imgFinish rest d).1 = .error (ascii "no pages in document") ∧
    (pdfFinish deflate imgFinish rest d).2.w.output = d.w.output := by
  simp [pdfFinish, writeDocCatalogAndPages, h, nextObjNum]

theorem c5_zero_pages_witness :
    (⟨⟨[], 0, 0, 1, [(0, 0)], 1, 7⟩, [], []⟩ : DocM).pages = ([] : List PageM) ∧
    ((pdfFinish id (fun _ w => w) (fun d n => (.ok n, d))
        ⟨⟨[], 0, 0, 1, [(0, 0)], 1, 7⟩, [], []⟩).1 =
          .error (ascii "no pages in document") ∧
     (pdfFinish id (fun _ w => w) (fun d n => (.ok n, d))
        ⟨⟨[], 0, 0, 1, [(0, 0)], 1, 7⟩, [], []⟩).2.w.output =
       (⟨⟨[], 0, 0, 1, [(0, 0)], 1, 7⟩, [], []⟩ : DocM).w.output) :=
  ⟨rfl, c5_zero_pages id (fun _ w => w) (fun d n => (.ok n, d)) _ rfl⟩

/-! ## Claim C1 -/

/-- Direct-recursive form of the chunk-collection loop: window of `m`
object numbers starting at `i`, with the currently open chunk. -/
def runsAux (f : Nat → Option Nat) : Nat → Nat → Option (Nat × List Nat) → List (Nat × List Nat)
  | _, 0, _ => []
  | i, m+1, cur =>
      match f i, cur with
      | some p, none => runsAux f (i+1) m (some (i, [p]))
      | some p, some c => runsAux f (i+1) m (some (c.1, c.2 ++ [p]))
      | none, none => runsAux f (i+1) m none
      | none, some c => c :: runsAux f (i+1) m none

theorem foldl_xrefChunksStep (f : Nat → Option Nat) :
    ∀ (m i : Nat) (cur : Option (Nat × List Nat)) (acc : List (Nat × List Nat)),
    ((List.range' i m).foldl (xrefChunksStep f) (cur, acc)).2 = acc ++ runsAux f i m cur := by
  intro m
  induction m with
  | zero => intro i cur acc; simp [runsAux]
  | succ m ih =>
      intro i cur acc
      rw [List.range'_succ, List.foldl_cons]
      cases hfi : f i with
      | some p =>
          cases cur with
          | none =>
              have hstep : xrefChunksStep f (none, acc) i = (some (i, [p]), acc) := by
                simp [xrefChunksStep, hfi]
              rw [hstep, ih]
              simp [runsAux, hfi]
          | some c =>
              have hstep : xrefChunksStep f (some c, acc) i = (some (c.1, c.2 ++ [p]), acc) := by
                simp [xrefChunksStep, hfi]
              rw [hstep, ih]
              simp [runsAux, hfi]
      | none =>
          cases cur with
          | none =>
              have hstep : xrefChunksStep f (none, acc) i = (none, acc) := by
                simp [xrefChunksStep, hfi]
              rw [hstep, ih]
              simp [runsAux, hfi]
          | some c =>
              have hstep : xrefChunksStep f (some c, acc) i = (none, acc ++ [c]) := by
                simp [xrefChunksStep, hfi]
              rw [hstep, ih]
              simp [runsAux, hfi]

theorem takeWhile_range'_all (q : Nat → Bool) :
    ∀ (M i j : Nat), i ≤ j → j < i + ((List.range' i M).takeWhile q).length → q j = true := by
  intro M
  induction M with
  | zero => intro i j h1 h2; simp at h2; omega
  | succ M ih =>
      intro i j h1 h2
      by_cases hq : q i = true
      · rw [List.range'_succ, List.takeWhile_cons_of_pos hq, List.length_cons] at h2
        rcases Nat.eq_or_lt_of_le h1 with he | hlt
        · rw [← he]; exact hq
        · exact ih (i+1) j hlt (by omega)
      · rw [List.range'_succ, List.takeWhile_cons_of_neg hq, List.length_nil] at h2
        omega

theorem takeWhile_range'_next (q : Nat → Bool) :
    ∀ (M i : Nat), ((List.range' i M).takeWhile q).length < M →
      q (i + ((List.range' i M).takeWhile q).length) = false := by
  intro M
  induction M with
  | zero => intro i h; omega
  | succ M ih =>
      intro i h
      by_cases hq : q i = true
      · rw [List.range'_succ, List.takeWhile_cons_of_pos hq, List.length_cons] at h ⊢
        have he : i + (((List.range' (i+1) M).takeWhile q).length + 1) =
            (i + 1) + ((List.range' (i+1) M).takeWhile q).length := by omega
        rw [he]
        exact ih (i+1) (by omega)
      · rw [List.range'_succ, List.takeWhile_cons_of_neg hq, List.length_nil]
        rw [Nat.add_zero]
        exact Bool.not_eq_true _ |>.mp hq

theorem takeWhile_range'_of_window (q : Nat → Bool) :
    ∀ (L M i : Nat), L ≤ M →
    (∀ j, i ≤ j → j < i + L → q j = true) →
    (q (i + L) = false) →
    (List.range' i M).takeWhile q = List.range' i L := by
  intro L
  induction L with
  | zero =>
      intro M i _ _ hfail
      cases M with
      | zero => simp
      | succ M =>
          rw [List.range'_succ, List.takeWhile_cons_of_neg (by simp_all)]
          simp
  | succ L ih =>
      intro M i hLM hall hfail
      cases M with
      | zero => omega
      | succ M =>
          have hq : q i = true := hall i le_rfl (by omega)
          rw [List.range'_succ, List.takeWhile_cons_of_pos hq]
          rw [show List.range' i (L+1) = i :: List.range' (i+1) L from List.range'_succ i L 1]
          congr 1
          exact ih M (i+1) (by omega)
            (fun j h1 h2 => hall j (by omega) (by omega))
            (by rw [show i + 1 + L = i + (L + 1) from by omega]; exact hfail)

theorem runsAux_open (f : Nat → Option Nat) :
    ∀ (L m i : Nat) (s : Nat) (ps : List Nat), L ≤ m →
    (∀ j, i ≤ j → j < i + L → isRecorded f j = true) →
    (L < m → isRecorded f (i + L) = false) →
    runsAux f i m (some (s, ps)) =
      if L = m then []
      else (s, ps ++ (List.range' i L).map (fun j => (f j).getD 0)) ::
           runsAux f (i + L + 1) (m - L - 1) none := by
  intro L
  induction L with
  | zero =>
      intro m i s ps _ _ hfail
      cases m with
      | zero => simp [runsAux]
      | succ m =>
          have hf : f i = none := by
            have := hfail (by omega)
            simpa [isRecorded, Option.not_isSome_iff_eq_none] using this
          rw [if_neg (by omega)]
          simp [runsAux, hf]
  | succ L ih =>
      intro m i s ps hLm hall hfail
      cases m with
      | zero => omega
      | succ m =>
          have hq : isRecorded f i = true := hall i le_rfl (by omega)
          obtain ⟨p, hp⟩ : ∃ p, f i = some p := by
            cases hfp : f i
            · simp [isRecorded, hfp] at hq
            · exact ⟨_, rfl⟩
          have hstep : runsAux f i (m+1) (some (s, ps)) =
              runsAux f (i+1) m (some (s, ps ++ [p])) := by
            simp [runsAux, hp]
          rw [hstep]
          rw [ih m (i+1) s (ps ++ [p]) (by omega)
            (fun j h1 h2 => hall j (by omega) (by omega))
            (fun h => by
              rw [show i + 1 + L = i + (L + 1) from by omega]
              exact hfail (by omega))]
          by_cases hLe : L = m
          · rw [if_pos hLe, if_pos (by omega)]
          · rw [if_neg hLe, if_neg (by omega)]
            have e1 : i + 1 + L + 1 = i + (L + 1) + 1 := by omega
            have e2 : m - L - 1 = m + 1 - (L + 1) - 1 := by omega
            rw [e1, e2]
            have e3 : ps ++ [p] ++ (List.range' (i+1) L).map (fun j => (f j).getD 0) =
                ps ++ (List.range' i (L+1)).map (fun j => (f j).getD 0) := by
              rw [show List.range' i (L+1) = i :: List.range' (i+1) L from List.range'_succ i L 1]
              simp [hp]
            rw [e3]

theorem runsAux_specChunks (f : Nat → Option Nat) (n : Nat)
    (hn : ∀ k, n ≤ k → f k = none) :
    ∀ (m : Nat), ∀ (i : Nat), i + m = n + 1 → (i = 0 ∨ isRecorded f (i - 1) = false) →
    runsAux f i m none =
      ((List.range' i (n - i)).filter
        (fun j => isRecorded f j && (decide (j = 0) || !isRecorded f (j - 1)))).map
        (fun s => (s, runPositions f s n)) := by
  intro m
  induction m using Nat.strong_induction_on with
  | _ m IH =>
    intro i him hstart
    cases m with
    | zero =>
        have hi : i = n + 1 := by omega
        have h0 : n - i = 0 := by omega
        rw [h0]
        simp [runsAux]
    | succ m' =>
        have hin : i ≤ n := by omega
        have hni : n - i = m' := by omega
        by_cases hi : isRecorded f i = true
        · -- a run starts at i
          have hm1 : 1 ≤ m' := by
            rcases Nat.eq_zero_or_pos m' with h0 | h1
            · exfalso
              have : i = n := by omega
              rw [this] at hi
              simp [isRecorded, hn n le_rfl] at hi
            · exact h1
          obtain ⟨p, hp⟩ : ∃ p, f i = some p := by
            cases hfp : f i
            · simp [isRecorded, hfp] at hi
            · exact ⟨_, rfl⟩
          set L := ((List.range' i m').takeWhile (isRecorded f)).length with hLdef
          have hLle : L ≤ m' := by
            have hpre : (List.range' i m').takeWhile (isRecorded f) <+: List.range' i m' :=
              List.takeWhile_prefix _
            have := hpre.length_le
            simpa [List.length_range'] using this
          have hall : ∀ j, i ≤ j → j < i + L → isRecorded f j = true :=
            fun j h1 h2 => takeWhile_range'_all (isRecorded f) m' i j h1 h2
          have hL1 : 1 ≤ L := by
            by_contra hc
            have hL0 : L = 0 := by omega
            have := takeWhile_range'_next (isRecorded f) m' i (by omega)
            rw [← hLdef, hL0, Nat.add_zero] at this
            rw [this] at hi
            exact Bool.false_ne_true hi
          have hfailU : isRecorded f (i + L) = false := by
            rcases Nat.lt_or_ge L m' with hlt | hge
            · exact takeWhile_range'_next (isRecorded f) m' i hlt
            · have hLm : L = m' := by omega
              have : i + L = n := by omega
              rw [this]
              simp [isRecorded, hn n le_rfl]
          have hstep : runsAux f i (m'+1) none =
              runsAux f (i+1) m' (some (i, [p])) := by
            simp [runsAux, hp]
          rw [hstep]
          rw [runsAux_open f (L-1) m' (i+1) i [p] (by omega)
            (fun j h1 h2 => hall j (by omega) (by omega))
            (fun h => by
              rw [show i + 1 + (L-1) = i + L from by omega]
              exact hfailU)]
          rw [if_neg (by omega)]
          have e1 : i + 1 + (L - 1) + 1 = i + L + 1 := by omega
          have e2 : m' - (L - 1) - 1 = m' - L := by omega
          rw [e1, e2]
          -- the tail by the induction hypothesis
          rw [IH (m' - L) (by omega) (i + L + 1) (by omega)
            (Or.inr (by rw [show i + L + 1 - 1 = i + L from by omega]; exact hfailU))]
          -- assemble the right-hand side
          rw [hni]
          have hsplit : List.range' i m' =
              List.range' i L ++ List.range' (i + L) (m' - L) := by
            have := List.range'_append i L (m' - L) 1
            rw [show i + 1 * L = i + L from by omega] at this
            rw [show m' - L + L = m' from by omega] at this
            exact this.symm
          rw [hsplit, List.filter_append]
          have hrunL : List.range' i L = i :: List.range' (i+1) (L-1) := by
            rw [show L = (L - 1) + 1 from by omega, List.range'_succ]
            rw [show (L - 1) + 1 - 1 = L - 1 from by omega]
          have hfilter1 :
              (List.range' i L).filter
                (fun j => isRecorded f j && (decide (j = 0) || !isRecorded f (j - 1))) = [i] := by
            rw [hrunL]
            rw [List.filter_cons_of_pos (by
              rcases hstart with h0 | hpred
              · subst h0; simp [hi]
              · simp [hi, hpred])]
            rw [List.filter_eq_nil_iff.mpr (by
              intro j hj
              rw [List.mem_range'_1] at hj
              have hj1 : j ≠ 0 := by omega
              have hj2 : isRecorded f (j - 1) = true := by
                apply hall
                · omega
                · omega
              simp [hj1, hj2])]
          rw [hfilter1]
          have hfilter2 :
              (List.range' (i + L) (m' - L)).filter
                (fun j => isRecorded f j && (decide (j = 0) || !isRecorded f (j - 1))) =
              (List.range' (i + L + 1) (n - (i + L + 1))).filter
                (fun j => isRecorded f j && (decide (j = 0) || !isRecorded f (j - 1))) := by
            rcases Nat.eq_zero_or_pos (m' - L) with h0 | hpos
            · rw [h0, show n - (i + L + 1) = 0 from by omega]
              simp
            · rw [show m' - L = (m' - L - 1) + 1 from by omega, List.range'_succ]
              rw [List.filter_cons_of_neg (by simp [hfailU])]
              rw [show n - (i + L + 1) = m' - L - 1 from by omega]
          rw [hfilter2]
          simp only [List.map_append, List.map_cons, List.map_nil, List.singleton_append]
          congr 2
          -- the head chunk's positions are the run's positions
          rw [runPositions, hni]
          rw [takeWhile_range'_of_window (isRecorded f) L m' i hLle hall hfailU]
          rw [hrunL]
          simp [hp]
        · -- i is not recorded: skip it
          have hf : f i = none := by
            simpa [isRecorded, Option.not_isSome_iff_eq_none] using hi
          have hstep : runsAux f i (m'+1) none = runsAux f (i+1) m' none := by
            simp [runsAux, hf]
          rw [hstep]
          rw [IH m' (by omega) (i+1) (by omega)
            (Or.inr (by rw [show i + 1 - 1 = i from by omega]
                        exact Bool.not_eq_true _ |>.mp hi))]
          rcases Nat.eq_zero_or_pos m' with h0 | hpos
          · rw [hni, h0, show n - (i + 1) = 0 from by omega]
            simp
          · rw [hni, show m' = (m' - 1) + 1 from by omega, List.range'_succ]
            rw [List.filter_cons_of_neg (by simp [hi])]
            rw [show n - (i + 1) = m' - 1 from by omega]

theorem natDecAux_length_le :
    ∀ (fuel n k : Nat), n < fuel → n < 10 ^ k → 1 ≤ k →
    (natDecAux fuel n).length ≤ k := by
  intro fuel
  induction fuel with
  | zero => intro n k h; omega
  | succ fuel ih =>
      intro n k hnf hnk hk
      rw [natDecAux]
      by_cases h10 : n < 10
      · rw [if_pos h10]
        simpa using hk
      · rw [if_neg h10]
        rw [List.length_append]
        have hk2 : 2 ≤ k := by
          by_contra hlt
          have hk1 : k = 1 := by omega
          subst hk1
          rw [pow_one] at hnk
          omega
        have hdiv : n / 10 < 10 ^ (k - 1) := by
          rw [Nat.div_lt_iff_lt_mul (by norm_num)]
          calc n < 10 ^ k := hnk
          _ = 10 ^ (k - 1) * 10 := by
              rw [← pow_succ]
              congr 1
              omega
        have hdivf : n / 10 < fuel := by
          have := Nat.div_lt_self (show 0 < n by omega) (show 1 < 10 by norm_num)
          omega
        have := ih (n / 10) (k - 1) hdivf hdiv (by omega)
        simp only [List.length_cons, List.length_nil]
        omega

theorem natDec_length_le (n k : Nat) (h : n < 10 ^ k) (hk : 1 ≤ k) :
    (natDec n).length ≤ k :=
  natDecAux_length_le (n + 1) n k (by omega) h hk

/-- Claim C1: the cross-reference section emitted by `Finish`
(src/writer.go:561-601) consists of one subsection per maximal contiguous
run of recorded object numbers — a `<start> <count>` header line followed
by one 20-byte line per object of the run (the free entry for object 0,
the used entry with the 10-digit zero-padded offset otherwise) — and
every unrecorded object number terminates the current run.  The
hypothesis says the table records no object number at or beyond
`nextobject`, which `Finish` guarantees because object numbers are
allocated from the `nextobject` counter. -/
theorem c1_xref_section (f : Nat → Option Nat) (n : Nat)
    (hn : ∀ k, n ≤ k → f k = none) :
    xrefSection f n = specXrefSection f n ∧
    ∀ onum pos, pos < 10 ^ 10 → (xrefLine onum pos).length = 20 := by
  have hchunks : xrefChunks f n = specChunks f n := by
    rw [xrefChunks, List.range_eq_range']
    rw [foldl_xrefChunksStep f (n + 1) 0 none []]
    rw [runsAux_specChunks f n hn (n + 1) 0 (by omega) (Or.inl rfl)]
    rw [specChunks, runStarts, List.range_eq_range']
    simp
  constructor
  · rw [xrefSection, specXrefSection, hchunks]
    congr 1
  · intro onum pos hpos
    have hlen := natDec_length_le pos 10 hpos (by norm_num)
    have h1 : (ascii " 65535 f \n").length = 10 := rfl
    have h2 : (ascii " 00000 n \n").length = 10 := rfl
    rw [xrefLine]
    split <;>
      simp only [zeroPad10, List.length_append, List.length_replicate, h1, h2] <;>
      try omega

theorem c1_xref_section_witness :
    (∀ k, 4 ≤ k →
      (fun j => if j = 1 then some 17 else if j = 2 then some 300 else (none : Option Nat)) k
        = none) ∧
    (xrefSection
        (fun j => if j = 1 then some 17 else if j = 2 then some 300 else none) 4 =
      specXrefSection
        (fun j => if j = 1 then some 17 else if j = 2 then some 300 else none) 4 ∧
     ∀ onum pos, pos < 10 ^ 10 → (xrefLine onum pos).length = 20) :=
  ⟨fun k hk => by
      simp only
      rw [if_neg (by omega), if_neg (by omega)],
   c1_xref_section (fun j => if j = 1 then some 17 else if j = 2 then some 300 else none) 4
     (fun k hk => by
       simp only
       rw [if_neg (by omega), if_neg (by omega)])⟩
